import Mathlib

/-!
# The bolt usage demonstration (`examples/demo.go`)

A shallow embedding of `main`, `createUser` and `i2b`.  Byte slices are lists
of naturals, Go's `int` is a 64-bit two's-complement integer held in `Int`,
`uint64` is a natural below `2^64`.
-/

namespace BoltDemo

/-- A Go byte slice. -/
abbrev Bytes := List Nat

/-- Go `bytes.Compare`: lexicographic three-way comparison, a proper prefix
sorts first. -/
def bytesCompare : Bytes → Bytes → Int
  | [], [] => 0
  | [], _ :: _ => -1
  | _ :: _, [] => 1
  | x :: xs, y :: ys =>
    if x < y then -1 else if y < x then 1 else bytesCompare xs ys

/-- Go `binary.BigEndian.PutUint64` on a fresh 8-byte buffer: byte `i` is
`byte(v >> (56 - 8*i))`. -/
def putUint64 (v : Nat) : Bytes :=
  [v / 2 ^ 56 % 256, v / 2 ^ 48 % 256, v / 2 ^ 40 % 256, v / 2 ^ 32 % 256,
   v / 2 ^ 24 % 256, v / 2 ^ 16 % 256, v / 2 ^ 8 % 256, v % 256]

/-- Go `binary.BigEndian.Uint64`: the unsigned integer a byte string spells,
most significant byte first. -/
def uint64BE (b : Bytes) : Nat :=
  b.foldl (fun acc x => acc * 256 + x) 0

/-- Go conversion `uint64(v)` of an `int`: reduction modulo `2^64`. -/
def toUint64 (v : Int) : Nat := (v % 2 ^ 64).toNat

/-- Go conversion `int(id)` of a `uint64` on a 64-bit platform: the same 64
bits read as two's complement. -/
def toInt (id : Nat) : Int :=
  if id % 2 ^ 64 < 2 ^ 63 then ((id % 2 ^ 64 : Nat) : Int)
  else ((id % 2 ^ 64 : Nat) : Int) - 2 ^ 64

/-- Source `i2b`: `buf := make([]byte, 8); PutUint64(buf, uint64(v))`. -/
def i2b (v : Int) : Bytes := putUint64 (toUint64 v)

/-- Go `strconv.FormatUint(n, 10)` digit loop: the decimal digits of `n`, as
ASCII, put in front of `acc`; `fuel` bounds the number of digits. -/
def decimalAux : Nat → Nat → Bytes → Bytes
  | 0, _, acc => acc
  | fuel + 1, n, acc =>
    if n < 10 then (48 + n) :: acc
    else decimalAux fuel (n / 10) ((48 + n % 10) :: acc)

/-- Go `strconv.FormatUint(n, 10)`. -/
def formatUint (n : Nat) : Bytes := decimalAux (n + 1) n []

/-- Go `strconv.Itoa(v)`: a minus sign and the magnitude for a negative
number. -/
def itoa (v : Int) : Bytes :=
  if v < 0 then 45 :: formatUint v.natAbs else formatUint v.toNat

/-- Source `type User struct`. `Name` is the Go string's bytes. -/
structure User where
  Id : Int
  Name : Bytes
  Age : Int
deriving DecidableEq, Repr

/-- The bytes of a string literal. -/
def lit (s : String) : Bytes := s.toList.map Char.toNat

/-- One hexadecimal digit, lower case, as ASCII. -/
def hexDigit (n : Nat) : Nat := if n < 10 then 48 + n else 87 + n

/-- Whether a byte continues a UTF-8 sequence: `0x80` to `0xBF`. -/
def isCont (c : Nat) : Bool := decide (128 ≤ c) && decide (c ≤ 191)

/-- Go `utf8.DecodeRuneInString`, the size it reports: the length of the valid
UTF-8 sequence the bytes start with, and 0 when they start with none (the case
`RuneError` with size 1). The second byte's range depends on the first:
`E0` wants `A0..BF`, `ED` wants `80..9F`, `F0` wants `90..BF`, `F4` wants
`80..8F`. -/
def runeLen : Bytes → Nat
  | [] => 0
  | c :: rest =>
    if c < 128 then 1
    else if 194 ≤ c ∧ c ≤ 223 then
      match rest with
      | c2 :: _ => if isCont c2 then 2 else 0
      | _ => 0
    else if 224 ≤ c ∧ c ≤ 239 then
      match rest with
      | c2 :: c3 :: _ =>
        if (if c = 224 then 160 else 128) ≤ c2 ∧ c2 ≤ (if c = 237 then 159 else 191)
            ∧ isCont c3 = true then 3
        else 0
      | _ => 0
    else if 240 ≤ c ∧ c ≤ 244 then
      match rest with
      | c2 :: c3 :: c4 :: _ =>
        if (if c = 240 then 144 else 128) ≤ c2 ∧ c2 ≤ (if c = 244 then 143 else 191)
            ∧ isCont c3 = true ∧ isCont c4 = true then 4
        else 0
      | _ => 0
    else 0

/-- Go `encoding/json` string body, byte by byte: `copy` bytes that continue a
sequence already decoded are copied, `skip` bytes of a sequence already written
as an escape are dropped. An ASCII byte is copied, or escaped when it is a
quote, a backslash, a newline, a carriage return, a tab, another control
character or one of `<`, `>`, `&` (as `\u00XX`); a byte that starts no valid
UTF-8 sequence becomes `\ufffd`; U+2028 and U+2029 become `\u2028` and
`\u2029`; any other sequence is copied. -/
def jsonEscapeFrom : Nat → Nat → Bytes → Bytes
  | _, _, [] => []
  | copy + 1, skip, c :: cs => c :: jsonEscapeFrom copy skip cs
  | 0, skip + 1, _ :: cs => jsonEscapeFrom 0 skip cs
  | 0, 0, c :: cs =>
    if c < 128 then
      if c = 34 then 92 :: 34 :: jsonEscapeFrom 0 0 cs
      else if c = 92 then 92 :: 92 :: jsonEscapeFrom 0 0 cs
      else if c = 10 then 92 :: 110 :: jsonEscapeFrom 0 0 cs
      else if c = 13 then 92 :: 114 :: jsonEscapeFrom 0 0 cs
      else if c = 9 then 92 :: 116 :: jsonEscapeFrom 0 0 cs
      else if c < 32 ∨ c = 60 ∨ c = 62 ∨ c = 38 then
        92 :: 117 :: 48 :: 48 :: hexDigit (c / 16) :: hexDigit (c % 16)
          :: jsonEscapeFrom 0 0 cs
      else c :: jsonEscapeFrom 0 0 cs
    else if runeLen (c :: cs) = 0 then
      92 :: 117 :: 102 :: 102 :: 102 :: 100 :: jsonEscapeFrom 0 0 cs
    else if c = 226 ∧ cs.take 2 = [128, 168] then
      92 :: 117 :: 50 :: 48 :: 50 :: 56 :: jsonEscapeFrom 0 2 cs
    else if c = 226 ∧ cs.take 2 = [128, 169] then
      92 :: 117 :: 50 :: 48 :: 50 :: 57 :: jsonEscapeFrom 0 2 cs
    else c :: jsonEscapeFrom (runeLen (c :: cs) - 1) 0 cs

/-- Go `encoding/json` string body of a whole string (HTML escaping on, as
`json.Marshal` has it). -/
def jsonEscape (s : Bytes) : Bytes := jsonEscapeFrom 0 0 s

/-- Go `json.Marshal(u)` for `*User` with the tags `id`, `name`, `age`:
the object with the three fields in declaration order. -/
def jsonBytes (u : User) : Bytes :=
  lit "\x7b\"id\":" ++ itoa u.Id ++ lit ",\"name\":\"" ++ jsonEscape u.Name
    ++ lit "\",\"age\":" ++ itoa u.Age ++ lit "\x7d"

/-- Whether a byte is an ASCII decimal digit. -/
def isDigit (c : Nat) : Bool := decide (48 ≤ c) && decide (c ≤ 57)

/-- The number a run of ASCII decimal digits spells. -/
def parseDigits (ds : Bytes) : Nat := ds.foldl (fun acc d => acc * 10 + (d - 48)) 0

/-- The rest of `b` after the leading bytes `p`, when `b` starts with them. -/
def dropLead : Bytes → Bytes → Option Bytes
  | [], b => some b
  | _ :: _, [] => none
  | x :: p, y :: b => if x = y then dropLead p b else none

/-- Reading back the `id` field of a serialized user: the integer literal that
follows the opening `\x7b"id":`, a minus sign first when it is negative. -/
def jsonIdField (b : Bytes) : Option Int :=
  match dropLead (lit "\x7b\"id\":") b with
  | none => none
  | some [] => none
  | some (c :: cs) =>
    if c = 45 then some (-(parseDigits (cs.takeWhile isDigit) : Int))
    else some (parseDigits ((c :: cs).takeWhile isDigit) : Int)

/-- Every element of a byte string is below 256. -/
def IsBytes (b : Bytes) : Prop := ∀ x ∈ b, x < 256

/-! ## The store that `main` drives

The storage engine is not part of `examples/demo.go`; what follows models the
contract the demonstration consumes. -/

/-- The errors a step can return. `io` stands for any failure of the
environment (lock, disk); `wrapped` is `fmt.Errorf("create bucket failed:
%+v", err)`. -/
inductive Error where
  | io
  | bucketExists
  | txClosed
  | marshal
  | wrapped (e : Error)
deriving DecidableEq, Repr

/-- The outcome of a call: a value, a returned `error`, a Go panic (a method
called on a nil `*Bucket`), or no return at all (a loop that outran the step
budget the embedding gives it). -/
inductive Res (α : Type) where
  | ok (a : α)
  | err (e : Error)
  | panic
  | stuck
deriving DecidableEq, Repr

/-- Modelled from the spec: a bucket, "a named, independently keyed namespace":
its key/value pairs in ascending byte-lexicographic key order and its
"bucket-scoped, persisted monotonic counter". The engine's bucket type is not in
the demonstration's source. -/
structure BucketData where
  pairs : List (Bytes × Bytes)
  sequence : Nat
deriving DecidableEq, Repr

/-- The names leading from the root to a bucket; a non-nil `*Bucket` is the
path of the bucket it denotes. -/
abbrev Path := List Bytes

/-- Modelled from the spec: the database file's content, every bucket (nested
ones included) under its path. The engine's file format is not in the
demonstration's source. -/
abbrev Store := List (Path × BucketData)

/-- The bucket stored under a path, if any. -/
def findBucket (p : Path) : Store → Option BucketData
  | [] => none
  | (q, d) :: rest => if q = p then some d else findBucket p rest

/-- Bind a path to bucket content, replacing an earlier binding. -/
def setBucket (p : Path) (d : BucketData) : Store → Store
  | [] => [(p, d)]
  | (q, e) :: rest => if q = p then (p, d) :: rest else (q, e) :: setBucket p d rest

/-- Insert or replace a pair, keeping the keys ascending. -/
def insertPair (k v : Bytes) : List (Bytes × Bytes) → List (Bytes × Bytes)
  | [] => [(k, v)]
  | (k1, v1) :: rest =>
    if bytesCompare k k1 < 0 then (k, v) :: (k1, v1) :: rest
    else if bytesCompare k k1 = 0 then (k, v) :: rest
    else (k1, v1) :: insertPair k v rest

/-- The value bound to a key, if any. -/
def lookupPair (k : Bytes) : List (Bytes × Bytes) → Option Bytes
  | [] => none
  | (k1, v1) :: rest => if bytesCompare k k1 = 0 then some v1 else lookupPair k rest

/-- Modelled from the spec: `Tx.Bucket(name)` and `Bucket.Bucket(name)`, the
handle of an existing bucket or nil. The engine function is not in the
demonstration's source. -/
def openBucket (s : Store) (parent : Path) (name : Bytes) : Option Path :=
  if (findBucket (parent ++ [name]) s).isSome then some (parent ++ [name]) else none

/-- Modelled from the spec: `CreateBucket(name)`, "calling create on an existing
bucket is expected to fail"; otherwise an empty bucket with counter 0 appears.
`fault` is a failure of the environment. The engine function is not in the
demonstration's source. -/
def createBucket (fault : Option Error) (s : Store) (parent : Path) (name : Bytes) :
    Res (Store × Path) :=
  match fault with
  | some e => .err e
  | none =>
    if (findBucket (parent ++ [name]) s).isSome then .err .bucketExists
    else .ok (setBucket (parent ++ [name]) ⟨[], 0⟩ s, parent ++ [name])

/-- Increment of a `uint64` counter: `sequence++`. -/
def incr64 (n : Nat) : Nat := (n + 1) % 2 ^ 64

/-- Modelled from the spec: `Bucket.NextSequence()`, the bucket's `uint64`
counter incremented by one and returned. A nil receiver panics. The engine
function is not in the demonstration's source. -/
def nextSequence (fault : Option Error) (s : Store) (b : Option Path) : Res (Store × Nat) :=
  match b with
  | none => .panic
  | some p =>
    match findBucket p s with
    | none => .panic
    | some d =>
      match fault with
      | some e => .err e
      | none =>
        let id := incr64 d.sequence
        .ok (setBucket p { d with sequence := id } s, id)

/-- Modelled from the spec: `Bucket.Put(key, value)`, "byte-slice keyed
storage". A nil receiver panics. The engine function is not in the
demonstration's source. -/
def put (fault : Option Error) (s : Store) (b : Option Path) (k v : Bytes) : Res Store :=
  match b with
  | none => .panic
  | some p =>
    match findBucket p s with
    | none => .panic
    | some d =>
      match fault with
      | some e => .err e
      | none => .ok (setBucket p { d with pairs := insertPair k v d.pairs } s)

/-- Modelled from the spec: `Bucket.Get(key)`, "returns nil on miss, never
errors on miss"; `none` is the nil slice. A nil receiver panics. The engine
function is not in the demonstration's source. -/
def get (s : Store) (b : Option Path) (k : Bytes) : Res (Option Bytes) :=
  match b with
  | none => .panic
  | some p =>
    match findBucket p s with
    | none => .panic
    | some d => .ok (lookupPair k d.pairs)

/-- The value bound to a key of the bucket under a path, `none` when the key or
the bucket is missing. -/
def valueAt (s : Store) (p : Path) (k : Bytes) : Option Bytes :=
  match findBucket p s with
  | none => none
  | some d => lookupPair k d.pairs

/-- Modelled from the spec: a cursor, "an ordered traversal handle over a
bucket's keys": the bucket's pairs and the part of them that starts at the
current position. The engine's cursor is not in the demonstration's source. -/
structure Cursor where
  items : List (Bytes × Bytes)
  rest : List (Bytes × Bytes)
deriving DecidableEq, Repr

/-- Modelled from the spec: `Bucket.Cursor()`; a nil receiver panics. -/
def cursor (s : Store) (b : Option Path) : Res Cursor :=
  match b with
  | none => .panic
  | some p =>
    match findBucket p s with
    | none => .panic
    | some d => .ok ⟨d.pairs, d.pairs⟩

/-- Modelled from the spec: `Cursor.First()`, "seek-to-first"; `none` is the
nil key. -/
def Cursor.First (c : Cursor) : Cursor × Option (Bytes × Bytes) :=
  ({ c with rest := c.items }, c.items.head?)

/-- Modelled from the spec: `Cursor.Seek(t)`, "returning the first key ≥
target". -/
def Cursor.Seek (c : Cursor) (t : Bytes) : Cursor × Option (Bytes × Bytes) :=
  let r := c.items.dropWhile (fun kv => decide (bytesCompare kv.1 t < 0))
  ({ c with rest := r }, r.head?)

/-- Modelled from the spec: `Cursor.Next()`, the pair after the current one. -/
def Cursor.Next (c : Cursor) : Cursor × Option (Bytes × Bytes) :=
  ({ c with rest := c.rest.tail }, c.rest.tail.head?)

/-- Modelled from the spec: a read-write transaction: the database as last
committed, the transaction's own view of it, and whether it is still open. The
engine's transaction type is not in the demonstration's source. -/
structure Tx where
  db : Store
  work : Store
  live : Bool
deriving DecidableEq, Repr

/-- Modelled from the spec: `db.Begin(true)`. -/
def beginTx (fault : Option Error) (db : Store) : Res Tx :=
  match fault with
  | some e => .err e
  | none => .ok ⟨db, db, true⟩

/-- Modelled from the spec: `Tx.Commit()`, "the whole transaction either commits
all writes or is rolled back"; a failed commit rolls back. -/
def Tx.Commit (fault : Option Error) (tx : Tx) : Tx × Option Error :=
  if tx.live then
    match fault with
    | some e => (⟨tx.db, tx.db, false⟩, some e)
    | none => (⟨tx.work, tx.work, false⟩, none)
  else (tx, some .txClosed)

/-- Modelled from the spec: `Tx.Rollback()`, "a no-op if commit already
succeeded": on a closed transaction it only reports that. -/
def Tx.Rollback (tx : Tx) : Tx × Option Error :=
  if tx.live then (⟨tx.db, tx.db, false⟩, none) else (tx, some .txClosed)

/-- What a managed transaction leaves: the variables its closure captured, the
database, and what the call returned. -/
structure TxResult (σ : Type) where
  state : σ
  db : Store
  res : Res Unit

/-- Modelled from the spec: `db.Update(fn)`, "runs body in a read-write
transaction; non-nil return aborts and rolls back". `s` is what the closure
captures and may assign. -/
def update {σ : Type} (beginFault commitFault : Option Error) (db : Store) (s : σ)
    (fn : Store → σ → σ × Res Store) : TxResult σ :=
  match beginTx beginFault db with
  | .err e => ⟨s, db, .err e⟩
  | .panic => ⟨s, db, .panic⟩
  | .stuck => ⟨s, db, .stuck⟩
  | .ok tx =>
    match fn tx.work s with
    | (s1, .err e) => ⟨s1, tx.Rollback.1.db, .err e⟩
    | (s1, .panic) => ⟨s1, tx.Rollback.1.db, .panic⟩
    | (s1, .stuck) => ⟨s1, tx.Rollback.1.db, .stuck⟩
    | (s1, .ok w) =>
      match Tx.Commit commitFault { tx with work := w } with
      | (tx1, some e) => ⟨s1, tx1.db, .err e⟩
      | (tx1, none) => ⟨s1, tx1.db, .ok ()⟩

/-- Modelled from the spec: `db.View(fn)`, "runs body in a read-only
transaction": the database is never changed. -/
def view {σ : Type} (fault : Option Error) (db : Store) (s : σ)
    (fn : Store → σ → σ × Res Unit) : σ × Res Unit :=
  match fault with
  | some e => (s, .err e)
  | none => fn db s

/-- Modelled from the spec: `Bucket.ForEach(fn)`, "push-style iteration over
all pairs in a bucket, aborting early if the callback reports failure". -/
def forEachPairs {σ : Type} (fn : Bytes → Bytes → σ → σ × Option Error) :
    List (Bytes × Bytes) → σ → σ × Res Unit
  | [], s => (s, .ok ())
  | (k, v) :: rest, s =>
    match fn k v s with
    | (s1, some e) => (s1, .err e)
    | (s1, none) => forEachPairs fn rest s1

/-- Modelled from the spec: `Bucket.ForEach(fn)` on a handle; a nil receiver
panics. -/
def forEach {σ : Type} (fault : Option Error) (db : Store) (b : Option Path) (s : σ)
    (fn : Bytes → Bytes → σ → σ × Option Error) : σ × Res Unit :=
  match b with
  | none => (s, .panic)
  | some p =>
    match findBucket p db with
    | none => (s, .panic)
    | some d =>
      match fault with
      | some e => (s, .err e)
      | none => forEachPairs fn d.pairs s

/-- Modelled from the spec: `Bucket.CreateBucket(name)` on a handle; a nil
receiver panics. -/
def createBucketIn (fault : Option Error) (s : Store) (b : Option Path) (name : Bytes) :
    Res (Store × Path) :=
  match b with
  | none => .panic
  | some p => createBucket fault s p name

/-! ## The demonstration -/

/-- The calls of `main` and `createUser` that return an `error`; the index is
the loop variable `i` of the creating loop. -/
inductive Site where
  | openDb
  | createBegin | createBucket | createCommit
  | putBegin | putUser | putCommit
  | getView
  | userBegin (i : Nat) | userSeq (i : Nat) | userPut (i : Nat) | userCommit (i : Nat)
  | iterView | prefixView | rangeView | eachView | forEach
  | nestedBegin | nestedCreate | nestedCommit
  | manualBegin | manualCreate | manualSeq | manualPut | manualCommit
deriving DecidableEq, Repr

/-- What surrounds the program: which calls into the store fail for reasons
of the environment, and `json.Marshal` on a `*User`. -/
structure Env where
  fault : Site → Option Error
  marshal : User → Except Error Bytes

/-- The lines the program prints. -/
inductive Event where
  | got (raw : Bytes)
  | iter (k v : Bytes)
  | sought (kv : Option (Bytes × Bytes))
  | ranged (k v : Bytes)
  | each (k v : Bytes)
deriving DecidableEq, Repr

/-- How `main` ends (or stands after a step): still running or returned,
stopped by `pp.Fatal`, crashed by a panic, or never returning. -/
inductive Status where
  | ok
  | fatal (e : Error)
  | panicked
  | stuck
deriving DecidableEq, Repr

/-- The state of a run of `main`: status, database, printed lines. -/
structure Run where
  status : Status
  db : Store
  out : List Event
deriving DecidableEq, Repr

/-- Source `var bucket = []byte("users")`. -/
def bucket : Bytes := lit "users"

/-- Source `if err = ...; err != nil \x7b pp.Fatal(err) \x7d`. -/
def checked (r : Res Unit) (db : Store) (out : List Event) : Run :=
  match r with
  | .ok _ => ⟨.ok, db, out⟩
  | .err e => ⟨.fatal e, db, out⟩
  | .panic => ⟨.panicked, db, out⟩
  | .stuck => ⟨.stuck, db, out⟩

/-- Source `db.View(...)` as a statement: the returned error is dropped. -/
def unchecked (r : Res Unit) (db : Store) (out : List Event) : Run :=
  match r with
  | .ok _ => ⟨.ok, db, out⟩
  | .err _ => ⟨.ok, db, out⟩
  | .panic => ⟨.panicked, db, out⟩
  | .stuck => ⟨.stuck, db, out⟩

/-- Sequencing of the statements of `main`: the next one runs when the one
before neither stopped nor crashed the program. -/
def Run.andThen (r : Run) (step : Store → List Event → Run) : Run :=
  match r.status with
  | .ok => step r.db r.out
  | _ => r

/-- Source `main`, lines 30-35: `bolt.Open`. -/
def openStep (env : Env) (db : Store) (out : List Event) : Run :=
  match env.fault .openDb with
  | some e => ⟨.fatal e, db, out⟩
  | none => ⟨.ok, db, out⟩

/-- Source `main`, lines 39-48. -/
def createStep (env : Env) (db : Store) (out : List Event) : Run :=
  let r := update (env.fault .createBegin) (env.fault .createCommit) db () (fun tx s =>
    match createBucket (env.fault .createBucket) tx [] bucket with
    | .ok (tx1, _) => (s, .ok tx1)
    | .err e => (s, .err (.wrapped e))
    | .panic => (s, .panic)
    | .stuck => (s, .stuck))
  checked r.res r.db out

/-- Source `main`, lines 51-56. -/
def putStep (env : Env) (db : Store) (out : List Event) : Run :=
  let r := update (env.fault .putBegin) (env.fault .putCommit) db () (fun tx s =>
    (s, put (env.fault .putUser) tx (openBucket tx [] bucket) (lit "user_1") (lit "wuYin")))
  checked r.res r.db out

/-- Source `main`, lines 59-66. -/
def getStep (env : Env) (db : Store) (out : List Event) : Run :=
  let r := view (env.fault .getView) db out (fun tx o =>
    match get tx (openBucket tx [] bucket) (lit "user_1") with
    | .ok raw => (o ++ [.got (raw.getD [])], .ok ())
    | .err e => (o, .err e)
    | .panic => (o, .panic)
    | .stuck => (o, .stuck))
  checked r.2 db r.1

/-- Source `createUser`; `i` only names the call for the environment. -/
def createUser (env : Env) (i : Nat) (u : User) (db : Store) : TxResult User :=
  update (env.fault (.userBegin i)) (env.fault (.userCommit i)) db u (fun tx u0 =>
    match nextSequence (env.fault (.userSeq i)) tx (openBucket tx [] bucket) with
    | .err e => (u0, .err e)
    | .panic => (u0, .panic)
    | .stuck => (u0, .stuck)
    | .ok (tx1, id) =>
      let u1 : User := { u0 with Id := toInt id }
      match env.marshal u1 with
      | .error e => (u1, .err e)
      | .ok buf => (u1, put (env.fault (.userPut i)) tx1 (openBucket tx [] bucket) (i2b u1.Id) buf))

/-- Source `main`, line 70:
`&User\x7bName: "user_" + strconv.Itoa(i), Age: i * 10\x7d`. -/
def newUser (i : Nat) : User := ⟨0, lit "user_" ++ itoa i, (i : Int) * 10⟩

/-- Source `main`, lines 69-74: `n` iterations are left, the loop variable is
`i`. -/
def userLoop (env : Env) : Nat → Nat → Store → List Event → Run
  | 0, _, db, out => ⟨.ok, db, out⟩
  | n + 1, i, db, out =>
    let r := createUser env i (newUser i) db
    (checked r.res r.db out).andThen (userLoop env n (i + 1))

/-- Source `main`, lines 80-82: the loop over `c.First()`, `c.Next()`. -/
def iterLoop : Nat → Cursor → Option (Bytes × Bytes) → List Event → Option (List Event)
  | 0, _, _, _ => none
  | fuel + 1, c, kv, out =>
    match kv with
    | none => some out
    | some (k, v) => iterLoop fuel c.Next.1 c.Next.2 (out ++ [.iter k v])

/-- Source `main`, lines 77-84. -/
def iterStep (env : Env) (db : Store) (out : List Event) : Run :=
  let r := view (env.fault .iterView) db out (fun tx o =>
    match cursor tx (openBucket tx [] bucket) with
    | .ok c =>
      match iterLoop (c.items.length + 1) c.First.1 c.First.2 o with
      | some o1 => (o1, .ok ())
      | none => (o, .stuck)
    | .err e => (o, .err e)
    | .panic => (o, .panic)
    | .stuck => (o, .stuck))
  unchecked r.2 db r.1

/-- Source `main`, lines 87-93. -/
def prefixStep (env : Env) (db : Store) (out : List Event) : Run :=
  let r := view (env.fault .prefixView) db out (fun tx o =>
    match cursor tx (openBucket tx [] bucket) with
    | .ok c => (o ++ [.sought (c.Seek (lit "user_")).2], .ok ())
    | .err e => (o, .err e)
    | .panic => (o, .panic)
    | .stuck => (o, .stuck))
  unchecked r.2 db r.1

/-- Source `main`, line 102-104: the loop
`for k, v := c.Seek(min); k != nil && bytes.Compare(k, max) <= 0; k, v = c.Next()`
from the pair `kv` that `Seek` or `Next` last returned. -/
def rangeLoop (max : Bytes) :
    Nat → Cursor → Option (Bytes × Bytes) → List Event → Option (List Event)
  | 0, _, _, _ => none
  | fuel + 1, c, kv, out =>
    match kv with
    | none => some out
    | some (k, v) =>
      if bytesCompare k max ≤ 0 then
        rangeLoop max fuel c.Next.1 c.Next.2 (out ++ [.ranged k v])
      else some out

/-- Source `main`, lines 97-104, on a cursor: the range scan between two
bounds. -/
def rangeScan (c : Cursor) (min max : Bytes) (out : List Event) : Option (List Event) :=
  rangeLoop max (c.items.length + 1) (c.Seek min).1 (c.Seek min).2 out

/-- Source `main`, lines 96-106. -/
def rangeStep (env : Env) (db : Store) (out : List Event) : Run :=
  let r := view (env.fault .rangeView) db out (fun tx o =>
    match cursor tx (openBucket tx [] bucket) with
    | .ok c =>
      match rangeScan c (putUint64 2) (putUint64 3) o with
      | some o1 => (o1, .ok ())
      | none => (o, .stuck)
    | .err e => (o, .err e)
    | .panic => (o, .panic)
    | .stuck => (o, .stuck))
  unchecked r.2 db r.1

/-- Source `main`, lines 109-116: the result of `ForEach` is dropped, the
closure returns nil. -/
def eachStep (env : Env) (db : Store) (out : List Event) : Run :=
  let r := view (env.fault .eachView) db out (fun tx o =>
    match forEach (env.fault .forEach) tx (openBucket tx [] bucket) o
        (fun k v o1 => (o1 ++ [.each k v], none)) with
    | (o1, .panic) => (o1, .panic)
    | (o1, .stuck) => (o1, .stuck)
    | (o1, _) => (o1, .ok ()))
  unchecked r.2 db r.1

/-- Source `main`, lines 119-124. -/
def nestedStep (env : Env) (db : Store) (out : List Event) : Run :=
  let r := update (env.fault .nestedBegin) (env.fault .nestedCommit) db () (fun tx s =>
    match createBucket (env.fault .nestedCreate) tx [] (formatUint 10) with
    | .ok (tx1, _) => (s, .ok tx1)
    | .err e => (s, .err e)
    | .panic => (s, .panic)
    | .stuck => (s, .stuck))
  checked r.res r.db out

/-- Source `main`, lines 133-152: the body of the manual transaction after
`defer tx.Rollback()`. -/
def manualBody (env : Env) (tx : Tx) : Tx × Res Unit :=
  match createBucketIn (env.fault .manualCreate) tx.work
      (openBucket tx.work [] (formatUint 10)) (lit "admins") with
  | .err e => (tx, .err e)
  | .panic => (tx, .panic)
  | .stuck => (tx, .stuck)
  | .ok (w1, child) =>
    match nextSequence (env.fault .manualSeq) w1 (some child) with
    | .err e => ({ tx with work := w1 }, .err e)
    | .panic => ({ tx with work := w1 }, .panic)
    | .stuck => ({ tx with work := w1 }, .stuck)
    | .ok (w2, uid) =>
      let u : User := ⟨toInt uid, [], 0⟩
      let buf : Bytes := match env.marshal u with
        | .ok b => b
        | .error _ => []
      match put (env.fault .manualPut) w2 (some child) (formatUint uid) buf with
      | .err e => ({ tx with work := w2 }, .err e)
      | .panic => ({ tx with work := w2 }, .panic)
      | .stuck => ({ tx with work := w2 }, .stuck)
      | .ok w3 =>
        match Tx.Commit (env.fault .manualCommit) { tx with work := w3 } with
        | (tx1, some e) => (tx1, .err e)
        | (tx1, none) => (tx1, .ok ())

/-- Source `main`, lines 126-153: the function literal with the manual
transaction; the deferred `Rollback` runs whichever way the body ends. -/
def manualBlock (env : Env) (db : Store) : Store × Res Unit :=
  match beginTx (env.fault .manualBegin) db with
  | .err e => (db, .err e)
  | .panic => (db, .panic)
  | .stuck => (db, .stuck)
  | .ok tx =>
    let r := manualBody env tx
    (r.1.Rollback.1.db, r.2)

/-- Source `main`, lines 126-155. -/
def manualStep (env : Env) (db : Store) (out : List Event) : Run :=
  let r := manualBlock env db
  checked r.2 r.1 out

/-- Source `main`. -/
def main (env : Env) (db : Store) : Run :=
  ((((((((((openStep env db []).andThen (createStep env)).andThen (putStep env)).andThen
    (getStep env)).andThen (userLoop env 3 0)).andThen (iterStep env)).andThen
    (prefixStep env)).andThen (rangeStep env)).andThen (eachStep env)).andThen
    (nestedStep env)).andThen (manualStep env)

/-- The environment in which no call fails and `json.Marshal` is the
encoder modelled above. -/
def calm : Env := ⟨fun _ => none, fun u => .ok (jsonBytes u)⟩

/-- Keys strictly ascending in byte-lexicographic order: what a bucket's
content is to the cursor. -/
def Ascending (items : List (Bytes × Bytes)) : Prop :=
  items.Pairwise (fun a b => bytesCompare a.1 b.1 < 0)

/-- Whether a pair's key lies between two bounds, both included, in
byte-lexicographic order. -/
def inRange (min max : Bytes) (kv : Bytes × Bytes) : Bool :=
  decide (bytesCompare min kv.1 ≤ 0) && decide (bytesCompare kv.1 max ≤ 0)

/-- The pairs of a store's `users` bucket. -/
def usersPairs (db : Store) : List (Bytes × Bytes) :=
  match findBucket [bucket] db with
  | some d => d.pairs
  | none => []

/-- The `users` bucket as `main` has populated it: a run on an empty database
in which nothing fails. -/
def populated : List (Bytes × Bytes) := usersPairs (main calm []).db

/-- The path of the nested bucket the manual transaction creates. -/
def adminsPath : Path := [formatUint 10, lit "admins"]

/-- The value the manual transaction writes: `buf, _ := json.Marshal(u)` for
the user with `Id` 1, nil when marshalling fails. -/
def adminsValue (env : Env) : Bytes :=
  match env.marshal ⟨toInt 1, [], 0⟩ with
  | .ok b => b
  | .error _ => []

/-- A key of the form `createUser` writes: 8 bytes, the big-endian encoding of
an unsigned 64-bit integer. -/
def IsIdKey (k : Bytes) : Prop := k.length = 8 ∧ ∃ n, n < 2 ^ 64 ∧ k = putUint64 n

/-- What a key of the `users` bucket is bound to in one store differs from
what it is bound to in another: the key was written in between. -/
def Written (before after : Store) (k : Bytes) : Prop :=
  valueAt after [bucket] k ≠ valueAt before [bucket] k

/-- The database after a successful `createUser` on a bucket with content `d`:
counter advanced, serialized user put under `i2b` of the new id. -/
def afterCreate (d : BucketData) (buf : Bytes) (db : Store) : Store :=
  setBucket [bucket]
    ⟨insertPair (i2b (toInt (incr64 d.sequence))) buf d.pairs, incr64 d.sequence⟩
    (setBucket [bucket] ⟨d.pairs, incr64 d.sequence⟩ db)

/-- The statements of `main` that follow `bolt.Open`, in order. -/
def steps (env : Env) : List (Store → List Event → Run) :=
  [createStep env, putStep env, getStep env, userLoop env 3 0, iterStep env, prefixStep env,
    rangeStep env, eachStep env, nestedStep env, manualStep env]

/-- A run continued through a list of statements. -/
def runSteps (r : Run) (fs : List (Store → List Event → Run)) : Run :=
  fs.foldl Run.andThen r

/-- The run of `main` through its first `k` statements after `bolt.Open`. -/
def mainUpTo (k : Nat) (env : Env) (db : Store) : Run :=
  runSteps (openStep env db []) ((steps env).take k)

/-- The run of `main` up to the creating loop: lines 30-66. -/
def loopEntry (env : Env) (db : Store) : Run := mainUpTo 3 env db

/-- The calls whose returned error `main` drops return none: `db.View` and
`Bucket.ForEach` return what their closure returns, which is nil on every path
of the closures of lines 77-116, and `json.Marshal` succeeds on a `User`. -/
def Quiet (env : Env) : Prop :=
  env.fault .iterView = none ∧ env.fault .prefixView = none ∧
    env.fault .rangeView = none ∧ env.fault .eachView = none ∧
    env.fault .forEach = none ∧ ∀ u, ∃ b, env.marshal u = .ok b

/-- A run that is still going or was stopped by `pp.Fatal`, and whose store
has the property `Q` when it is still going. -/
def Fine (r : Run) (Q : Store → Prop) : Prop :=
  (r.status = .ok ∨ ∃ e, r.status = .fatal e) ∧ (r.status = .ok → Q r.db)

/-- The store at the creating loop of a run of `main` that got there from
`db`: the fresh `users` bucket with the one pair of the `Put` of line 53 and
its counter at 0. -/
def entryStore (db : Store) : Store :=
  setBucket [bucket] ⟨[(lit "user_1", lit "wuYin")], 0⟩ (setBucket [bucket] ⟨[], 0⟩ db)

/-- Source `main`, lines 77-84: the call `db.View(...)` whose result the
statement drops. -/
def iterCall (env : Env) (db : Store) (out : List Event) : List Event × Res Unit :=
  view (env.fault .iterView) db out (fun tx o =>
    match cursor tx (openBucket tx [] bucket) with
    | .ok c =>
      match iterLoop (c.items.length + 1) c.First.1 c.First.2 o with
      | some o1 => (o1, .ok ())
      | none => (o, .stuck)
    | .err e => (o, .err e)
    | .panic => (o, .panic)
    | .stuck => (o, .stuck))

/-- Source `main`, lines 87-93: the call `db.View(...)` whose result the
statement drops. -/
def prefixCall (env : Env) (db : Store) (out : List Event) : List Event × Res Unit :=
  view (env.fault .prefixView) db out (fun tx o =>
    match cursor tx (openBucket tx [] bucket) with
    | .ok c => (o ++ [.sought (c.Seek (lit "user_")).2], .ok ())
    | .err e => (o, .err e)
    | .panic => (o, .panic)
    | .stuck => (o, .stuck))

/-- Source `main`, lines 96-106: the call `db.View(...)` whose result the
statement drops. -/
def rangeCall (env : Env) (db : Store) (out : List Event) : List Event × Res Unit :=
  view (env.fault .rangeView) db out (fun tx o =>
    match cursor tx (openBucket tx [] bucket) with
    | .ok c =>
      match rangeScan c (putUint64 2) (putUint64 3) o with
      | some o1 => (o1, .ok ())
      | none => (o, .stuck)
    | .err e => (o, .err e)
    | .panic => (o, .panic)
    | .stuck => (o, .stuck))

/-- Source `main`, line 111: the call `b.ForEach(...)` whose result the
closure drops. -/
def forEachCall (env : Env) (tx : Store) (out : List Event) : List Event × Res Unit :=
  forEach (env.fault .forEach) tx (openBucket tx [] bucket) out
    (fun k v o1 => (o1 ++ [.each k v], none))

/-- Source `main`, lines 109-116: the call `db.View(...)` whose result the
statement drops. -/
def eachCall (env : Env) (db : Store) (out : List Event) : List Event × Res Unit :=
  view (env.fault .eachView) db out (fun tx o =>
    match forEachCall env tx o with
    | (o1, .panic) => (o1, .panic)
    | (o1, .stuck) => (o1, .stuck)
    | (o1, _) => (o1, .ok ()))

/-- An environment in which only the `Commit` of the `Update` of lines 51-56
fails. -/
def putCommitFails : Env :=
  ⟨fun s => if s = .putCommit then some .io else none, fun u => .ok (jsonBytes u)⟩

/-! ## Facts about the byte order -/

theorem bytesCompare_self (a : Bytes) : bytesCompare a a = 0 := by
  induction a with
  | nil => rfl
  | cons x xs ih => simp [bytesCompare, ih]

theorem bytesCompare_cons (x y : Nat) (xs ys : Bytes) :
    bytesCompare (x :: xs) (y :: ys)
      = if x < y then -1 else if y < x then 1 else bytesCompare xs ys := rfl

theorem bytesCompare_eq_zero {a b : Bytes} (h : bytesCompare a b = 0) : a = b := by
  induction a generalizing b with
  | nil => cases b with
    | nil => rfl
    | cons y ys => simp [bytesCompare] at h
  | cons x xs ih => cases b with
    | nil => simp [bytesCompare] at h
    | cons y ys =>
      rw [bytesCompare_cons] at h
      rcases Nat.lt_trichotomy x y with hxy | hxy | hxy
      · rw [if_pos hxy] at h; omega
      · subst hxy
        rw [if_neg (lt_irrefl x), if_neg (lt_irrefl x)] at h
        rw [ih h]
      · rw [if_neg (by omega), if_pos hxy] at h; omega

theorem bytesCompare_range (a b : Bytes) :
    bytesCompare a b = -1 ∨ bytesCompare a b = 0 ∨ bytesCompare a b = 1 := by
  induction a generalizing b with
  | nil => cases b <;> simp [bytesCompare]
  | cons x xs ih => cases b with
    | nil => simp [bytesCompare]
    | cons y ys =>
      rw [bytesCompare_cons]
      rcases Nat.lt_trichotomy x y with hxy | hxy | hxy
      · rw [if_pos hxy]; simp
      · subst hxy
        rw [if_neg (lt_irrefl x), if_neg (lt_irrefl x)]
        exact ih ys
      · rw [if_neg (by omega), if_pos hxy]; simp

theorem bytesCompare_swap (a b : Bytes) : bytesCompare b a = - bytesCompare a b := by
  induction a generalizing b with
  | nil => cases b <;> simp [bytesCompare]
  | cons x xs ih => cases b with
    | nil => simp [bytesCompare]
    | cons y ys =>
      rw [bytesCompare_cons, bytesCompare_cons]
      rcases Nat.lt_trichotomy x y with hxy | hxy | hxy
      · rw [if_pos hxy, if_neg (by omega), if_pos hxy]; rfl
      · subst hxy
        simp only [lt_irrefl, if_false]
        exact ih ys
      · rw [if_pos hxy, if_neg (by omega), if_pos hxy]

theorem bytesCompare_lt_trans {a b c : Bytes}
    (h1 : bytesCompare a b < 0) (h2 : bytesCompare b c < 0) : bytesCompare a c < 0 := by
  induction a generalizing b c with
  | nil => cases c with
    | nil => cases b <;> simp [bytesCompare] at h1 h2
    | cons z zs => simp [bytesCompare]
  | cons x xs ih => cases b with
    | nil => simp [bytesCompare] at h1
    | cons y ys => cases c with
      | nil => simp [bytesCompare] at h2
      | cons z zs =>
        rw [bytesCompare_cons] at h1 h2 ⊢
        rcases Nat.lt_trichotomy x y with hxy | hxy | hxy
        · rcases Nat.lt_trichotomy y z with hyz | hyz | hyz
          · rw [if_pos (by omega)]; decide
          · rw [if_pos (by omega)]; decide
          · rw [if_neg (by omega), if_pos hyz] at h2; omega
        · subst hxy
          rw [if_neg (lt_irrefl x), if_neg (lt_irrefl x)] at h1
          rcases Nat.lt_trichotomy x z with hyz | hyz | hyz
          · rw [if_pos hyz]; decide
          · subst hyz
            rw [if_neg (lt_irrefl x), if_neg (lt_irrefl x)] at h2 ⊢
            exact ih h1 h2
          · rw [if_neg (by omega), if_pos hyz] at h2; omega
        · rw [if_neg (by omega), if_pos hxy] at h1; omega

theorem bytesCompare_le_of_lt_of_le {a b c : Bytes}
    (h1 : bytesCompare a b < 0) (h2 : bytesCompare b c ≤ 0) : bytesCompare a c < 0 := by
  rcases bytesCompare_range b c with h | h | h
  · exact bytesCompare_lt_trans h1 (by omega)
  · rw [← bytesCompare_eq_zero h]; exact h1
  · omega

theorem bytesCompare_lt_of_le_of_lt {a b c : Bytes}
    (h1 : bytesCompare a b ≤ 0) (h2 : bytesCompare b c < 0) : bytesCompare a c < 0 := by
  rcases bytesCompare_range a b with h | h | h
  · exact bytesCompare_lt_trans (by omega) h2
  · rw [bytesCompare_eq_zero h]; exact h2
  · omega

/-! ## Facts about the big-endian encoding -/

theorem putUint64_length (v : Nat) : (putUint64 v).length = 8 := rfl

theorem putUint64_isBytes (v : Nat) : IsBytes (putUint64 v) := by
  intro x hx
  simp only [putUint64, List.mem_cons, List.mem_singleton, List.not_mem_nil, or_false] at hx
  rcases hx with h | h | h | h | h | h | h | h <;> omega

theorem uint64BE_putUint64 (v : Nat) : uint64BE (putUint64 v) = v % 2 ^ 64 := by
  simp only [uint64BE, putUint64, List.foldl]
  omega

theorem foldl_be_lt (xs ys : Bytes) (a1 a2 : Nat) (hlen : xs.length = ys.length)
    (hx : IsBytes xs) (h : a1 < a2) :
    xs.foldl (fun acc x => acc * 256 + x) a1 < ys.foldl (fun acc x => acc * 256 + x) a2 := by
  induction xs generalizing ys a1 a2 with
  | nil => cases ys with
    | nil => simpa using h
    | cons y ys => simp at hlen
  | cons x xs ih => cases ys with
    | nil => simp at hlen
    | cons y ys =>
      simp only [List.foldl]
      have hx0 : x < 256 := hx x (List.mem_cons_self _ _)
      apply ih ys _ _ (by simpa using hlen) (fun z hz => hx z (List.mem_cons_of_mem _ hz))
      omega

theorem bytesCompare_of_foldl_lt (xs ys : Bytes) (a : Nat) (hlen : xs.length = ys.length)
    (hy : IsBytes ys)
    (h : xs.foldl (fun acc x => acc * 256 + x) a < ys.foldl (fun acc x => acc * 256 + x) a) :
    bytesCompare xs ys < 0 := by
  induction xs generalizing ys a with
  | nil => cases ys with
    | nil => simp at h
    | cons y ys => simp at hlen
  | cons x xs ih => cases ys with
    | nil => simp at hlen
    | cons y ys =>
      rw [bytesCompare_cons]
      have hlen2 : xs.length = ys.length := by simpa using hlen
      have hys : IsBytes ys := fun z hz => hy z (List.mem_cons_of_mem _ hz)
      simp only [List.foldl] at h
      rcases Nat.lt_trichotomy x y with hxy | hxy | hxy
      · rw [if_pos hxy]; decide
      · subst hxy
        rw [if_neg (lt_irrefl x), if_neg (lt_irrefl x)]
        exact ih ys _ hlen2 hys h
      · exfalso
        have := foldl_be_lt ys xs (a * 256 + y) (a * 256 + x) hlen2.symm hys (by omega)
        omega

theorem bytesCompare_putUint64 {a b : Nat} (hab : a < b) (hb : b < 2 ^ 64) :
    bytesCompare (putUint64 a) (putUint64 b) < 0 := by
  apply bytesCompare_of_foldl_lt (putUint64 a) (putUint64 b) 0 rfl (putUint64_isBytes b)
  have h1 := uint64BE_putUint64 a
  have h2 := uint64BE_putUint64 b
  unfold uint64BE at h1 h2
  rw [h1, h2, Nat.mod_eq_of_lt (by omega), Nat.mod_eq_of_lt hb]
  exact hab

theorem toUint64_lt (v : Int) : toUint64 v < 2 ^ 64 := by
  unfold toUint64
  omega

theorem toUint64_of_nonneg {v : Int} (h0 : 0 ≤ v) (h1 : v < 2 ^ 64) :
    (toUint64 v : Int) = v := by
  unfold toUint64
  omega

theorem toUint64_toInt (id : Nat) : toUint64 (toInt id) = id % 2 ^ 64 := by
  unfold toUint64 toInt
  split_ifs <;> omega

theorem toInt_of_lt {id : Nat} (h : id < 2 ^ 63) : toInt id = (id : Int) := by
  unfold toInt
  rw [Nat.mod_eq_of_lt (by omega), if_pos h]

theorem i2b_toInt (id : Nat) : i2b (toInt id) = putUint64 (id % 2 ^ 64) := by
  unfold i2b
  rw [toUint64_toInt]

theorem putUint64_injective {a b : Nat} (ha : a < 2 ^ 64) (hb : b < 2 ^ 64)
    (h : putUint64 a = putUint64 b) : a = b := by
  have h1 := uint64BE_putUint64 a
  have h2 := uint64BE_putUint64 b
  rw [h, h2, Nat.mod_eq_of_lt hb, Nat.mod_eq_of_lt ha] at h1
  exact h1.symm



/-! ## Facts about the store -/

theorem findBucket_setBucket_same (p : Path) (d : BucketData) (s : Store) :
    findBucket p (setBucket p d s) = some d := by
  induction s with
  | nil => simp [setBucket, findBucket]
  | cons a rest ih =>
    obtain ⟨q, e⟩ := a
    by_cases hq : q = p
    · simp [setBucket, findBucket, hq]
    · simp [setBucket, findBucket, hq, ih]

theorem findBucket_setBucket_other {p q : Path} (hne : q ≠ p) (d : BucketData) (s : Store) :
    findBucket q (setBucket p d s) = findBucket q s := by
  induction s with
  | nil => simp [setBucket, findBucket, Ne.symm hne]
  | cons a rest ih =>
    obtain ⟨r, e⟩ := a
    by_cases hr : r = p
    · subst hr
      simp [setBucket, findBucket, Ne.symm hne]
    · by_cases hrq : r = q
      · subst hrq
        simp [setBucket, findBucket, hr]
      · simp [setBucket, findBucket, hr, hrq, ih]

theorem lookupPair_insertPair_same (k v : Bytes) (l : List (Bytes × Bytes)) :
    lookupPair k (insertPair k v l) = some v := by
  induction l with
  | nil => simp [insertPair, lookupPair, bytesCompare_self]
  | cons a rest ih =>
    obtain ⟨k1, v1⟩ := a
    unfold insertPair
    split_ifs with h1 h2
    · simp [lookupPair, bytesCompare_self]
    · simp [lookupPair, bytesCompare_self]
    · simp [lookupPair, h2, ih]

theorem lookupPair_insertPair_other {k k2 : Bytes} (hne : k2 ≠ k) (v : Bytes)
    (l : List (Bytes × Bytes)) :
    lookupPair k2 (insertPair k v l) = lookupPair k2 l := by
  have hk : bytesCompare k2 k ≠ 0 := fun h => hne (bytesCompare_eq_zero h)
  induction l with
  | nil => simp [insertPair, lookupPair, hk]
  | cons a rest ih =>
    obtain ⟨k1, v1⟩ := a
    unfold insertPair
    split_ifs with h1 h2
    · simp [lookupPair, hk]
    · have : k = k1 := bytesCompare_eq_zero h2
      subst this
      simp [lookupPair, hk]
    · simp [lookupPair, ih]

theorem valueAt_setBucket_same (p : Path) (d : BucketData) (s : Store) (k : Bytes) :
    valueAt (setBucket p d s) p k = lookupPair k d.pairs := by
  simp [valueAt, findBucket_setBucket_same]

theorem valueAt_setBucket_other {p q : Path} (hne : q ≠ p) (d : BucketData) (s : Store)
    (k : Bytes) : valueAt (setBucket p d s) q k = valueAt s q k := by
  simp [valueAt, findBucket_setBucket_other hne]

theorem openBucket_eq_some {s : Store} {p : Path} {n : Bytes} {d : BucketData}
    (h : findBucket (p ++ [n]) s = some d) : openBucket s p n = some (p ++ [n]) := by
  simp [openBucket, h]

theorem openBucket_eq_none {s : Store} {p : Path} {n : Bytes}
    (h : findBucket (p ++ [n]) s = none) : openBucket s p n = none := by
  simp [openBucket, h]

/-- A run of `createUser` in which nothing fails. -/
theorem createUser_run {env : Env} {i : Nat} {u : User} {db : Store} {d : BucketData}
    {buf : Bytes} (hf : findBucket [bucket] db = some d)
    (hb : env.fault (.userBegin i) = none) (hs : env.fault (.userSeq i) = none)
    (hp : env.fault (.userPut i) = none) (hc : env.fault (.userCommit i) = none)
    (hm : env.marshal { u with Id := toInt (incr64 d.sequence) } = .ok buf) :
    createUser env i u db
      = ⟨{ u with Id := toInt (incr64 d.sequence) }, afterCreate d buf db, .ok ()⟩ := by
  have ho : openBucket db [] bucket = some [bucket] := openBucket_eq_some (by simpa using hf)
  simp only [createUser, update, beginTx, hb, ho, nextSequence, hf, hs, hm, put,
    findBucket_setBucket_same, hp, hc, Tx.Commit, afterCreate, if_true]

/-- What a successful `createUser` did: the bucket existed with some content
`d`, no call failed, the counter went to `incr64 d.sequence`, the user got
`int` of that, and the serialized user was put under `i2b` of it. -/
theorem createUser_ok {env : Env} {i : Nat} {u : User} {db : Store}
    (h : (createUser env i u db).res = .ok ()) :
    ∃ d buf, findBucket [bucket] db = some d ∧
      env.fault (.userBegin i) = none ∧ env.fault (.userSeq i) = none ∧
      env.fault (.userPut i) = none ∧ env.fault (.userCommit i) = none ∧
      env.marshal { u with Id := toInt (incr64 d.sequence) } = .ok buf := by
  unfold createUser update beginTx at h
  cases hb : env.fault (.userBegin i) with
  | some e => simp [hb] at h
  | none =>
    simp only [hb] at h
    cases hf : findBucket [bucket] db with
    | none =>
      have ho : openBucket db [] bucket = none := openBucket_eq_none (by simpa using hf)
      simp [ho, nextSequence] at h
    | some d =>
      have ho : openBucket db [] bucket = some [bucket] := openBucket_eq_some (by simpa using hf)
      cases hs : env.fault (.userSeq i) with
      | some e => simp [ho, nextSequence, hf, hs] at h
      | none =>
        simp only [ho, nextSequence, hf, hs] at h
        cases hm : env.marshal { u with Id := toInt (incr64 d.sequence) } with
        | error e => simp [hm] at h
        | ok buf =>
          simp only [hm] at h
          simp only [put, findBucket_setBucket_same] at h
          cases hp : env.fault (.userPut i) with
          | some e => simp [hp] at h
          | none =>
            simp only [hp] at h
            cases hc : env.fault (.userCommit i) with
            | some e => simp [hc, Tx.Commit] at h
            | none => exact ⟨d, buf, rfl, rfl, rfl, rfl, rfl, hm⟩

/-! ## Facts about decimal rendering -/

theorem decimalAux_append (fuel n : Nat) (acc : Bytes) :
    decimalAux fuel n acc = decimalAux fuel n [] ++ acc := by
  induction fuel generalizing n acc with
  | zero => simp [decimalAux]
  | succ f ih =>
    unfold decimalAux
    split_ifs with h
    · simp
    · rw [ih (n / 10) ((48 + n % 10) :: acc), ih (n / 10) [48 + n % 10]]
      simp

theorem decimalAux_isDigit (fuel n : Nat) : ∀ d ∈ decimalAux fuel n [], isDigit d = true := by
  induction fuel generalizing n with
  | zero => simp [decimalAux]
  | succ f ih =>
    unfold decimalAux
    split_ifs with h
    · intro d hd
      simp only [List.mem_singleton] at hd
      subst hd
      simp only [isDigit, Bool.and_eq_true, decide_eq_true_eq]
      omega
    · rw [decimalAux_append]
      intro d hd
      rcases List.mem_append.mp hd with hd | hd
      · exact ih _ d hd
      · simp only [List.mem_singleton] at hd
        subst hd
        simp only [isDigit, Bool.and_eq_true, decide_eq_true_eq]
        omega

theorem decimalAux_ne_nil (fuel n : Nat) : decimalAux (fuel + 1) n [] ≠ [] := by
  unfold decimalAux
  split_ifs with h
  · simp
  · rw [decimalAux_append]
    simp

theorem parseDigits_snoc (ds : Bytes) (d : Nat) :
    parseDigits (ds ++ [d]) = parseDigits ds * 10 + (d - 48) := by
  simp [parseDigits, List.foldl_append]

theorem parseDigits_decimalAux (fuel n : Nat) (h : n < fuel) :
    parseDigits (decimalAux fuel n []) = n := by
  induction fuel generalizing n with
  | zero => omega
  | succ f ih =>
    unfold decimalAux
    split_ifs with h10
    · simp [parseDigits]
    · rw [decimalAux_append, parseDigits_snoc, ih (n / 10) (by omega)]
      omega

theorem parseDigits_formatUint (n : Nat) : parseDigits (formatUint n) = n :=
  parseDigits_decimalAux (n + 1) n (by omega)

theorem formatUint_isDigit (n : Nat) : ∀ d ∈ formatUint n, isDigit d = true :=
  decimalAux_isDigit (n + 1) n

theorem formatUint_ne_nil (n : Nat) : formatUint n ≠ [] := decimalAux_ne_nil n n

theorem takeWhile_digits (ds rest : Bytes) (c : Nat) (hds : ∀ d ∈ ds, isDigit d = true)
    (hc : isDigit c = false) : (ds ++ c :: rest).takeWhile isDigit = ds := by
  induction ds with
  | nil => simp [List.takeWhile, hc]
  | cons d ds ih =>
    have hd : isDigit d = true := hds d (List.mem_cons_self _ _)
    rw [List.cons_append, List.takeWhile_cons, hd,
      ih (fun x hx => hds x (List.mem_cons_of_mem _ hx))]
    rfl

theorem dropLead_append (p r : Bytes) : dropLead p (p ++ r) = some r := by
  induction p with
  | nil => cases r <;> rfl
  | cons x p ih => simp [dropLead, ih]

/-- The `id` field read back from a serialized user is the user's `Id`. -/
theorem jsonIdField_jsonBytes (u : User) : jsonIdField (jsonBytes u) = some u.Id := by
  have hshape : ∀ ds : Bytes, ∃ rest : Bytes,
      lit "\x7b\"id\":" ++ ds ++ lit ",\"name\":\"" ++ jsonEscape u.Name
        ++ lit "\",\"age\":" ++ itoa u.Age ++ lit "\x7d"
        = lit "\x7b\"id\":" ++ (ds ++ 44 :: rest) := by
    intro ds
    refine ⟨lit "\"name\":\"" ++ jsonEscape u.Name ++ lit "\",\"age\":" ++ itoa u.Age
      ++ lit "\x7d", ?_⟩
    have h44 : lit ",\"name\":\"" = 44 :: lit "\"name\":\"" := by decide
    rw [h44]
    simp only [List.append_assoc, List.cons_append]
  have h44 : isDigit 44 = false := by decide
  unfold jsonBytes
  by_cases hneg : u.Id < 0
  · have hi : itoa u.Id = 45 :: formatUint u.Id.natAbs := by
      unfold itoa
      rw [if_pos hneg]
    rw [hi]
    obtain ⟨rest, hrest⟩ := hshape (45 :: formatUint u.Id.natAbs)
    rw [hrest]
    unfold jsonIdField
    rw [dropLead_append]
    simp only [List.cons_append, if_true]
    rw [takeWhile_digits _ _ _ (formatUint_isDigit _) h44, parseDigits_formatUint]
    congr 1
    omega
  · have hi : itoa u.Id = formatUint u.Id.toNat := by
      unfold itoa
      rw [if_neg hneg]
    rw [hi]
    obtain ⟨rest, hrest⟩ := hshape (formatUint u.Id.toNat)
    rw [hrest]
    unfold jsonIdField
    rw [dropLead_append]
    have hne := formatUint_ne_nil u.Id.toNat
    have hdig := formatUint_isDigit u.Id.toNat
    have htw := takeWhile_digits (formatUint u.Id.toNat) rest 44 hdig h44
    cases hfu : formatUint u.Id.toNat with
    | nil => exact absurd hfu hne
    | cons c cs =>
      rw [hfu] at hdig htw
      have hc : isDigit c = true := hdig c (List.mem_cons_self _ _)
      have hc45 : c ≠ 45 := by
        intro h
        rw [h] at hc
        exact absurd hc (by decide)
      simp only [List.cons_append, if_neg hc45]
      simp only [List.cons_append] at htw
      rw [htw, ← hfu, parseDigits_formatUint]
      congr 1
      omega

/-! ## `i2b` and the key order -/

theorem i2b_length (v : Int) : (i2b v).length = 8 := rfl

theorem uint64BE_i2b (v : Int) : uint64BE (i2b v) = toUint64 v := by
  unfold i2b
  rw [uint64BE_putUint64, Nat.mod_eq_of_lt (toUint64_lt v)]

theorem toInt_toUint64 {v : Int} (h0 : -2 ^ 63 ≤ v) (h1 : v < 2 ^ 63) :
    toInt (toUint64 v) = v := by
  unfold toInt toUint64
  split_ifs <;> omega

/-- C10: for Go ints `0 <= a < b` (an `int` is below `2^63`), `i2b a` and
`i2b b` are 8 bytes long, `bytes.Compare (i2b a) (i2b b) < 0` (and `> 0` the
other way round), the two encodings differ, and reading the 8 bytes back as a
big-endian unsigned integer returns `a` and `b`: byte order of the keys is
numeric order of the ids. -/
theorem i2b_order_preserving (a b : Int) (ha : 0 ≤ a) (hab : a < b) (hb : b < 2 ^ 63) :
    (i2b a).length = 8 ∧ (i2b b).length = 8 ∧
      bytesCompare (i2b a) (i2b b) < 0 ∧ 0 < bytesCompare (i2b b) (i2b a) ∧
      i2b a ≠ i2b b ∧
      (uint64BE (i2b a) : Int) = a ∧ (uint64BE (i2b b) : Int) = b := by
  have hua : (toUint64 a : Int) = a := toUint64_of_nonneg ha (by omega)
  have hub : (toUint64 b : Int) = b := toUint64_of_nonneg (by omega) (by omega)
  have hlt : toUint64 a < toUint64 b := by omega
  have hcmp : bytesCompare (i2b a) (i2b b) < 0 :=
    bytesCompare_putUint64 hlt (toUint64_lt b)
  refine ⟨rfl, rfl, hcmp, ?_, ?_, ?_, ?_⟩
  · rw [bytesCompare_swap (i2b a) (i2b b)]
    omega
  · intro heq
    rw [heq, bytesCompare_self] at hcmp
    omega
  · rw [uint64BE_i2b, hua]
  · rw [uint64BE_i2b, hub]

/-- C10 at the ids 2 and 3, the bounds of the range scan of `main`. -/
theorem i2b_order_preserving_witness :
    (0 : Int) ≤ 2 ∧ (2 : Int) < 3 ∧
      bytesCompare (i2b 2) (i2b 3) < 0 ∧ (uint64BE (i2b 2) : Int) = 2 := by
  have h := i2b_order_preserving 2 3 (by decide) (by decide) (by decide)
  exact ⟨by decide, by decide, h.2.2.1, h.2.2.2.2.2.1⟩

/-! ## `createUser` -/

/-- C2: after a successful `createUser(u)` (which needs the `users` bucket to
exist), `Get` on the `users` bucket with the
key `i2b(u.Id)` returns exactly the bytes `json.Marshal` produced for `u` with its
assigned `Id`. -/
theorem createUser_get_roundtrip (env : Env) (i : Nat) (u : User) (db : Store)
    (h : (createUser env i u db).res = .ok ()) :
    ∃ buf, env.marshal (createUser env i u db).state = .ok buf ∧
      get (createUser env i u db).db (openBucket (createUser env i u db).db [] bucket)
        (i2b (createUser env i u db).state.Id) = .ok (some buf) := by
  obtain ⟨d, buf, hf, h1, h2, h3, h4, hm⟩ := createUser_ok h
  rw [createUser_run hf h1 h2 h3 h4 hm]
  refine ⟨buf, hm, ?_⟩
  have hfind : findBucket ([] ++ [bucket]) (afterCreate d buf db)
      = some ⟨insertPair (i2b (toInt (incr64 d.sequence))) buf d.pairs, incr64 d.sequence⟩ := by
    simp [afterCreate, findBucket_setBucket_same]
  rw [openBucket_eq_some hfind]
  simp only [List.nil_append] at hfind
  simp only [get, List.nil_append, hfind, lookupPair_insertPair_same]

/-- C2 on a store that holds an empty `users` bucket. -/
theorem createUser_get_roundtrip_witness :
    ∃ buf, calm.marshal (createUser calm 0 ⟨0, lit "user_0", 0⟩ [([bucket], ⟨[], 0⟩)]).state
        = .ok buf ∧
      get (createUser calm 0 ⟨0, lit "user_0", 0⟩ [([bucket], ⟨[], 0⟩)]).db
        (openBucket (createUser calm 0 ⟨0, lit "user_0", 0⟩ [([bucket], ⟨[], 0⟩)]).db [] bucket)
        (i2b (createUser calm 0 ⟨0, lit "user_0", 0⟩ [([bucket], ⟨[], 0⟩)]).state.Id)
        = .ok (some buf) :=
  createUser_get_roundtrip calm 0 ⟨0, lit "user_0", 0⟩ [([bucket], ⟨[], 0⟩)] rfl

/-! ## The creating loop -/

theorem andThen_ok (db : Store) (out : List Event) (f : Store → List Event → Run) :
    Run.andThen ⟨.ok, db, out⟩ f = f db out := rfl

theorem andThen_of_not_ok (r : Run) (f : Store → List Event → Run) (h : r.status ≠ .ok) :
    r.andThen f = r := by
  unfold Run.andThen
  cases hs : r.status with
  | ok => exact absurd hs h
  | fatal e => rfl
  | panicked => rfl
  | stuck => rfl

theorem andThen_status_ok {r : Run} {f : Store → List Event → Run}
    (h : (r.andThen f).status = .ok) : r.status = .ok := by
  by_contra hne
  rw [andThen_of_not_ok r f hne] at h
  exact hne h

theorem andThen_eq_of_ok {r : Run} (f : Store → List Event → Run) (h : r.status = .ok) :
    r.andThen f = f r.db r.out := by
  unfold Run.andThen
  rw [h]

theorem checked_status_ok {r : Res Unit} {db : Store} {out : List Event}
    (h : (checked r db out).status = .ok) : r = .ok () := by
  cases r with
  | ok a => rfl
  | err e => simp [checked] at h
  | panic => simp [checked] at h
  | stuck => simp [checked] at h

theorem checked_ok (db : Store) (out : List Event) :
    checked (.ok ()) db out = ⟨.ok, db, out⟩ := rfl

theorem userLoop_succ (env : Env) (n i : Nat) (db : Store) (out : List Event) :
    userLoop env (n + 1) i db out
      = (checked (createUser env i (newUser i) db).res
          (createUser env i (newUser i) db).db out).andThen (userLoop env n (i + 1)) := rfl

/-- One turn of the creating loop that did not stop the program. -/
theorem userLoop_succ_ok {env : Env} {n i : Nat} {db : Store} {out : List Event}
    (h : (userLoop env (n + 1) i db out).status = .ok) :
    (createUser env i (newUser i) db).res = .ok () ∧
      userLoop env (n + 1) i db out
        = userLoop env n (i + 1) (createUser env i (newUser i) db).db out := by
  rw [userLoop_succ] at h ⊢
  have h1 := checked_status_ok (andThen_status_ok h)
  refine ⟨h1, ?_⟩
  rw [h1, checked_ok, andThen_ok]

theorem incr64_lt (n : Nat) : incr64 n < 2 ^ 64 := by
  unfold incr64
  omega

theorem toInt_injective {a b : Nat} (ha : a < 2 ^ 64) (hb : b < 2 ^ 64)
    (h : toInt a = toInt b) : a = b := by
  have h1 := toUint64_toInt a
  have h2 := toUint64_toInt b
  rw [h, h2, Nat.mod_eq_of_lt hb, Nat.mod_eq_of_lt ha] at h1
  exact h1.symm

theorem findBucket_afterCreate (d : BucketData) (buf : Bytes) (db : Store) :
    findBucket [bucket] (afterCreate d buf db)
      = some ⟨insertPair (i2b (toInt (incr64 d.sequence))) buf d.pairs, incr64 d.sequence⟩ := by
  simp [afterCreate, findBucket_setBucket_same]

/-! ## The cursor and the range scan -/

theorem rangeLoop_eq (max : Bytes) (fuel : Nat) (items rest : List (Bytes × Bytes))
    (out : List Event) (hfuel : rest.length < fuel) :
    rangeLoop max fuel ⟨items, rest⟩ rest.head? out
      = some (out ++ (rest.takeWhile (fun kv => decide (bytesCompare kv.1 max ≤ 0))).map
          (fun kv => Event.ranged kv.1 kv.2)) := by
  induction fuel generalizing rest out with
  | zero => omega
  | succ f ih =>
    cases rest with
    | nil => simp [rangeLoop]
    | cons kv r =>
      obtain ⟨k, v⟩ := kv
      simp only [List.head?_cons, rangeLoop]
      by_cases hk : bytesCompare k max ≤ 0
      · rw [if_pos hk]
        have hlen : r.length < f := by
          simp only [List.length_cons] at hfuel
          omega
        have := ih r (out ++ [Event.ranged k v]) hlen
        simp only [Cursor.Next, List.tail_cons]
        rw [this, List.takeWhile_cons]
        simp [hk]
      · rw [if_neg hk, List.takeWhile_cons]
        simp [hk]

theorem dropWhile_eq_filter (t : Bytes) (items : List (Bytes × Bytes)) (hs : Ascending items) :
    items.dropWhile (fun kv => decide (bytesCompare kv.1 t < 0))
      = items.filter (fun kv => decide (bytesCompare t kv.1 ≤ 0)) := by
  induction items with
  | nil => rfl
  | cons a rest ih =>
    have hrest : Ascending rest := (List.pairwise_cons.mp hs).2
    have hhead := (List.pairwise_cons.mp hs).1
    by_cases ha : bytesCompare a.1 t < 0
    · have hna : ¬ bytesCompare t a.1 ≤ 0 := by
        rw [bytesCompare_swap a.1 t]
        omega
      rw [List.dropWhile_cons, List.filter_cons]
      simp only [ha, hna, decide_True, decide_False, if_true]
      exact ih hrest
    · have hna : bytesCompare t a.1 ≤ 0 := by
        rw [bytesCompare_swap a.1 t]
        omega
      rw [List.dropWhile_cons, List.filter_cons]
      simp only [ha, hna, decide_True, decide_False, if_true, Bool.false_eq_true, if_false]
      congr 1
      symm
      apply List.filter_eq_self.mpr
      intro b hb
      have hab := hhead b hb
      have : bytesCompare t b.1 < 0 := bytesCompare_lt_of_le_of_lt hna hab
      simp only [decide_eq_true_eq]
      omega

theorem takeWhile_eq_filter (t : Bytes) (items : List (Bytes × Bytes)) (hs : Ascending items) :
    items.takeWhile (fun kv => decide (bytesCompare kv.1 t ≤ 0))
      = items.filter (fun kv => decide (bytesCompare kv.1 t ≤ 0)) := by
  induction items with
  | nil => rfl
  | cons a rest ih =>
    have hrest : Ascending rest := (List.pairwise_cons.mp hs).2
    have hhead := (List.pairwise_cons.mp hs).1
    by_cases ha : bytesCompare a.1 t ≤ 0
    · rw [List.takeWhile_cons, List.filter_cons]
      simp only [ha, decide_True, if_true]
      rw [ih hrest]
    · rw [List.takeWhile_cons, List.filter_cons]
      simp only [ha, decide_False, Bool.false_eq_true, if_false]
      symm
      apply List.filter_eq_nil_iff.mpr
      intro b hb
      have hab := hhead b hb
      simp only [decide_eq_true_eq]
      intro hbt
      exact ha (le_of_lt (bytesCompare_le_of_lt_of_le hab hbt))

theorem ascending_sublist {l1 l2 : List (Bytes × Bytes)} (h : l1.Sublist l2)
    (hs : Ascending l2) : Ascending l1 :=
  List.Pairwise.sublist h hs

/-- C1: on a bucket whose keys the cursor iterates in ascending order, the
range-scan loop of `main` between any two bounds (the 8-byte big-endian bounds
of `main` among them) ends, and the pairs it visits are exactly the stored pairs
whose key `k` has `min <= k <= max` in byte-lexicographic order, in the order of
the bucket, that is ascending and each once. -/
theorem rangeScan_exact (c : Cursor) (min max : Bytes) (out : List Event)
    (hs : Ascending c.items) :
    rangeScan c min max out
        = some (out ++ (c.items.filter (inRange min max)).map
            (fun kv => Event.ranged kv.1 kv.2)) ∧
      Ascending (c.items.filter (inRange min max)) ∧
      (c.items.filter (inRange min max)).Nodup ∧
      ∀ kv, kv ∈ c.items.filter (inRange min max) ↔
        kv ∈ c.items ∧ bytesCompare min kv.1 ≤ 0 ∧ bytesCompare kv.1 max ≤ 0 := by
  obtain ⟨items, rest⟩ := c
  have hasc : Ascending (items.filter (inRange min max)) :=
    ascending_sublist (List.filter_sublist items) hs
  refine ⟨?_, hasc, ?_, ?_⟩
  · unfold rangeScan
    simp only [Cursor.Seek]
    have hlen : (items.dropWhile (fun kv => decide (bytesCompare kv.1 min < 0))).length
        < items.length + 1 := by
      have := (List.dropWhile_sublist (fun kv => decide (bytesCompare kv.1 min < 0))
        (l := items)).length_le
      omega
    rw [rangeLoop_eq max _ _ _ out hlen]
    have hdrop : Ascending (items.dropWhile (fun kv => decide (bytesCompare kv.1 min < 0))) :=
      ascending_sublist (List.dropWhile_sublist _) hs
    rw [takeWhile_eq_filter max _ hdrop, dropWhile_eq_filter min items hs, List.filter_filter]
    have hfun : (fun a : Bytes × Bytes =>
        decide (bytesCompare a.1 max ≤ 0) && decide (bytesCompare min a.1 ≤ 0))
        = inRange min max := by
      funext kv
      simp only [inRange, Bool.and_comm]
    rw [hfun]
  · apply List.Pairwise.imp _ hasc
    intro a b hab heq
    rw [heq, bytesCompare_self] at hab
    omega
  · intro kv
    simp only [List.mem_filter, inRange, Bool.and_eq_true, decide_eq_true_eq]

set_option maxRecDepth 100000 in
theorem populated_eq : populated =
    [(putUint64 1, jsonBytes ⟨1, lit "user_0", 0⟩), (putUint64 2, jsonBytes ⟨2, lit "user_1", 10⟩),
     (putUint64 3, jsonBytes ⟨3, lit "user_2", 20⟩), (lit "user_1", lit "wuYin")] := by
  rfl

set_option maxRecDepth 100000 in
theorem populated_ascending : Ascending populated := by
  rw [populated_eq]
  unfold Ascending
  decide

set_option maxRecDepth 100000 in
/-- C1 on the bucket `main` has populated, with the bounds of `main`
(big-endian 2 and 3): the scan visits the users with ids 2 and 3, not the key
of id 1 and not the key "user_1". -/
theorem rangeScan_exact_witness :
    Ascending populated ∧
      rangeScan ⟨populated, populated⟩ (putUint64 2) (putUint64 3) []
        = some [Event.ranged (putUint64 2) (jsonBytes ⟨2, lit "user_1", 10⟩),
            Event.ranged (putUint64 3) (jsonBytes ⟨3, lit "user_2", 20⟩)] ∧
      (putUint64 1, jsonBytes ⟨1, lit "user_0", 0⟩) ∈ populated ∧
      (lit "user_1", lit "wuYin") ∈ populated :=
  ⟨populated_ascending,
    (rangeScan_exact ⟨populated, populated⟩ (putUint64 2) (putUint64 3) []
      populated_ascending).1.trans (by rfl),
    by rw [populated_eq]; decide, by rw [populated_eq]; decide⟩

/-- C9: when the target is less than every stored key, `Seek` leaves the cursor
where `First` does and returns the same pair, the first stored one; when it is
greater than every stored key, `Seek` returns no key and the range-scan loop
that starts there runs its body zero times. -/
theorem seek_outside (c : Cursor) (t : Bytes) :
    ((∀ kv ∈ c.items, bytesCompare t kv.1 < 0) →
        c.Seek t = c.First ∧ (c.Seek t).2 = c.items.head?) ∧
      ((∀ kv ∈ c.items, bytesCompare kv.1 t < 0) →
        (c.Seek t).2 = none ∧ ∀ max out, rangeScan c t max out = some out) := by
  obtain ⟨items, rest⟩ := c
  constructor
  · intro h
    have hdrop : items.dropWhile (fun kv => decide (bytesCompare kv.1 t < 0)) = items := by
      cases items with
      | nil => rfl
      | cons a r =>
        have ha := h a (List.mem_cons_self _ _)
        have hna : ¬ bytesCompare a.1 t < 0 := by
          rw [bytesCompare_swap t a.1]
          omega
        rw [List.dropWhile_cons]
        simp only [hna, decide_False, Bool.false_eq_true, if_false]
    simp only [Cursor.Seek, Cursor.First, hdrop, and_self]
  · intro h
    have hdrop : items.dropWhile (fun kv => decide (bytesCompare kv.1 t < 0)) = [] := by
      apply List.dropWhile_eq_nil_iff.mpr
      intro kv hkv
      simp only [decide_eq_true_eq]
      exact h kv hkv
    refine ⟨?_, ?_⟩
    · simp only [Cursor.Seek, hdrop, List.head?_nil]
    · intro max out
      simp only [rangeScan, Cursor.Seek, hdrop, List.head?_nil, rangeLoop]

set_option maxRecDepth 100000 in
/-- C9 on the bucket `main` has populated: the empty target is below every
key, "user_2" is above every key; the target "user_" of the prefix scan lies
between the stored keys, and `Seek` returns the first key at or after it,
"user_1". -/
theorem seek_outside_witness :
    (Cursor.Seek ⟨populated, populated⟩ []).2 = populated.head? ∧
      (Cursor.Seek ⟨populated, populated⟩ (lit "user_2")).2 = none ∧
      (Cursor.Seek ⟨populated, populated⟩ (lit "user_")).2 = some (lit "user_1", lit "wuYin") :=
  ⟨((seek_outside ⟨populated, populated⟩ []).1 (by rw [populated_eq]; decide)).2,
    ((seek_outside ⟨populated, populated⟩ (lit "user_2")).2 (by rw [populated_eq]; decide)).1,
    by rfl⟩

/-! ## The first step on an existing bucket -/

theorem createStep_existing (env : Env) (db : Store) (out : List Event)
    (hu : (findBucket [bucket] db).isSome = true) :
    ∃ e, createStep env db out = ⟨.fatal e, db, out⟩ := by
  unfold createStep update beginTx
  cases hb : env.fault .createBegin with
  | some e => exact ⟨e, rfl⟩
  | none =>
    cases hc : env.fault .createBucket with
    | some e => exact ⟨.wrapped e, by simp [createBucket, checked, Tx.Rollback]⟩
    | none =>
      refine ⟨.wrapped .bucketExists, ?_⟩
      simp [createBucket, hu, checked, Tx.Rollback]

/-- C8: on a store that already holds a `users` bucket, `CreateBucket` returns
an error, and `main` stops through `pp.Fatal` in its first steps with the store
as it was and nothing printed: what `main` does is what `bolt.Open` and the
creating `Update` alone do, no `Put` is reached. -/
theorem main_existing_bucket (env : Env) (db : Store)
    (hu : (findBucket [bucket] db).isSome = true) :
    (∃ e, createBucket (env.fault .createBucket) db [] bucket = .err e) ∧
      (∃ e, createStep env db [] = ⟨.fatal e, db, []⟩) ∧
      (∃ e, main env db = ⟨.fatal e, db, []⟩) ∧
      main env db = (openStep env db []).andThen (createStep env) := by
  have hcreate : ∃ e, createBucket (env.fault .createBucket) db [] bucket = .err e := by
    unfold createBucket
    cases hc : env.fault .createBucket with
    | some e => exact ⟨e, rfl⟩
    | none => exact ⟨.bucketExists, by simp [hu]⟩
  obtain ⟨e, he⟩ := createStep_existing env db [] hu
  have hfatal : ∀ (e : Error) (f : Store → List Event → Run),
      Run.andThen ⟨.fatal e, db, []⟩ f = ⟨.fatal e, db, []⟩ := fun _ _ => rfl
  refine ⟨hcreate, ⟨e, he⟩, ?_, ?_⟩
  · unfold main openStep
    cases ho : env.fault .openDb with
    | some e0 => exact ⟨e0, by simp only [hfatal]⟩
    | none => exact ⟨e, by simp only [andThen_ok, he, hfatal]⟩
  · unfold main openStep
    cases ho : env.fault .openDb with
    | some e0 => simp only [hfatal]
    | none => simp only [andThen_ok, he, hfatal]

set_option maxRecDepth 100000 in
/-- C8 on the store an earlier complete run of `main` has left. -/
theorem main_existing_bucket_witness :
    (findBucket [bucket] (main calm []).db).isSome = true ∧
      main calm (main calm []).db
        = ⟨.fatal (.wrapped .bucketExists), (main calm []).db, []⟩ := by
  have h : (findBucket [bucket] (main calm []).db).isSome = true := by rfl
  obtain ⟨_, _, ⟨e, he⟩, _⟩ := main_existing_bucket calm (main calm []).db h
  refine ⟨h, ?_⟩
  have hst : (main calm (main calm []).db).status = .fatal (.wrapped .bucketExists) := by rfl
  rw [he] at hst ⊢
  simp only [Status.fatal.injEq] at hst
  rw [hst]

/-! ## The manual transaction -/

theorem rollback_after_commit (tx : Tx) (hl : tx.live = true) :
    (tx.Commit none).2 = none ∧ (tx.Commit none).1.db = tx.work ∧
      (tx.Commit none).1.Rollback.1 = (tx.Commit none).1 ∧
      (tx.Commit none).1.Rollback.2 = some .txClosed := by
  simp [Tx.Commit, Tx.Rollback, hl]

theorem adminsPath_ne : [formatUint 10] ≠ adminsPath := by
  unfold adminsPath
  simp

/-- What the manual transaction leaves: either the store as it was, with a
result that is not success, or success and the three writes. -/
theorem manualBlock_cases (env : Env) (db : Store) :
    ((manualBlock env db).1 = db ∧ (manualBlock env db).2 ≠ .ok ()) ∨
      ((manualBlock env db).2 = .ok () ∧
        (findBucket [formatUint 10] db).isSome = true ∧ findBucket adminsPath db = none ∧
        (manualBlock env db).1 =
          setBucket adminsPath ⟨insertPair (formatUint 1) (adminsValue env) [], 1⟩
            (setBucket adminsPath ⟨[], 1⟩ (setBucket adminsPath ⟨[], 0⟩ db))) := by
  unfold manualBlock beginTx
  cases hb : env.fault .manualBegin with
  | some e => left; simp
  | none =>
    simp only
    unfold manualBody
    cases h10 : findBucket [formatUint 10] db with
    | none =>
      left
      have ho : openBucket db [] (formatUint 10) = none := openBucket_eq_none (by simpa using h10)
      simp [ho, createBucketIn, Tx.Rollback]
    | some d10 =>
      have ho : openBucket db [] (formatUint 10) = some [formatUint 10] :=
        openBucket_eq_some (by simpa using h10)
      simp only [ho, createBucketIn, createBucket]
      cases hc : env.fault .manualCreate with
      | some e => left; simp [Tx.Rollback]
      | none =>
        simp only
        cases ha : findBucket ([formatUint 10] ++ [lit "admins"]) db with
        | some da => left; simp [Tx.Rollback]
        | none =>
          simp only [Option.isSome_none, Bool.false_eq_true, if_false, nextSequence,
            findBucket_setBucket_same]
          cases hs : env.fault .manualSeq with
          | some e => left; simp [Tx.Rollback]
          | none =>
            simp only [put, findBucket_setBucket_same]
            cases hp : env.fault .manualPut with
            | some e => left; simp [Tx.Rollback]
            | none =>
              simp only
              cases hm : env.fault .manualCommit with
              | some e => left; simp [Tx.Commit, Tx.Rollback]
              | none =>
                right
                have h1 : incr64 0 = 1 := rfl
                have ha2 : findBucket [formatUint 10, lit "admins"] db = none := ha
                simp only [Tx.Commit, Tx.Rollback, h1, adminsPath, adminsValue]
                simp [ha2]

/-- C4: the manual-transaction block of `main` is all-or-nothing. Whatever call
fails, if the block returns an error the store after it is the store before
`Begin`; if it returns nil, the `admins` bucket did not exist before and holds
afterwards the one record under the decimal key "1" with its counter at 1, every
other bucket being as it was; and the deferred `Rollback` after a successful
`Commit` changes nothing. -/
theorem manualBlock_atomic (env : Env) (db : Store) :
    (∀ e, (manualBlock env db).2 = .err e → (manualBlock env db).1 = db) ∧
      ((manualBlock env db).2 = .ok () →
        (findBucket [formatUint 10] db).isSome = true ∧
        findBucket adminsPath db = none ∧
        findBucket adminsPath (manualBlock env db).1
          = some ⟨[(formatUint 1, adminsValue env)], 1⟩ ∧
        valueAt (manualBlock env db).1 adminsPath (formatUint 1) = some (adminsValue env) ∧
        ∀ p, p ≠ adminsPath → findBucket p (manualBlock env db).1 = findBucket p db) ∧
      (∀ tx : Tx, tx.live = true →
        (tx.Commit none).1.db = tx.work ∧
        (tx.Commit none).1.Rollback.1 = (tx.Commit none).1) := by
  refine ⟨?_, ?_, ?_⟩
  · intro e he
    rcases manualBlock_cases env db with h | h
    · exact h.1
    · rw [h.1] at he
      exact absurd he (by simp)
  · intro hok
    rcases manualBlock_cases env db with h | h
    · exact absurd hok h.2
    · obtain ⟨_, h10, ha, hdb⟩ := h
      rw [hdb]
      refine ⟨h10, ha, ?_, ?_, ?_⟩
      · rw [findBucket_setBucket_same]
        rfl
      · rw [valueAt_setBucket_same]
        simp [insertPair, lookupPair, bytesCompare_self]
      · intro p hp
        rw [findBucket_setBucket_other hp, findBucket_setBucket_other hp,
          findBucket_setBucket_other hp]
  · intro tx hl
    have h := rollback_after_commit tx hl
    exact ⟨h.2.1, h.2.2.1⟩

set_option maxRecDepth 100000 in
/-- C4 on the store as `main` has it before the block (the bucket "10" exists,
nothing fails: the writes are there) and with a failing `Commit` (the store is
as before). -/
theorem manualBlock_atomic_witness :
    (manualBlock calm [([formatUint 10], ⟨[], 0⟩)]).2 = .ok () ∧
      findBucket adminsPath (manualBlock calm [([formatUint 10], ⟨[], 0⟩)]).1
        = some ⟨[(formatUint 1, adminsValue calm)], 1⟩ ∧
      (manualBlock ⟨fun s => if s = .manualCommit then some .io else none, calm.marshal⟩
        [([formatUint 10], ⟨[], 0⟩)]).2 = .err .io ∧
      (manualBlock ⟨fun s => if s = .manualCommit then some .io else none, calm.marshal⟩
        [([formatUint 10], ⟨[], 0⟩)]).1 = [([formatUint 10], ⟨[], 0⟩)] :=
  ⟨by rfl,
    ((manualBlock_atomic calm [([formatUint 10], ⟨[], 0⟩)]).2.1 (by rfl)).2.2.1,
    by rfl,
    (manualBlock_atomic ⟨fun s => if s = .manualCommit then some .io else none, calm.marshal⟩
      [([formatUint 10], ⟨[], 0⟩)]).1 .io (by rfl)⟩

/-! ## The keys written into the `users` bucket -/

theorem update_db {σ : Type} (bf cf : Option Error) (db : Store) (s : σ)
    (fn : Store → σ → σ × Res Store) :
    (update bf cf db s fn).db = db ∨
      ∃ s1 w, fn db s = (s1, .ok w) ∧ (update bf cf db s fn).db = w := by
  unfold update beginTx
  cases bf with
  | some e => left; rfl
  | none =>
    simp only
    rcases hfn : fn db s with ⟨s1, r⟩
    cases r with
    | err e => left; simp [Tx.Rollback]
    | panic => left; simp [Tx.Rollback]
    | stuck => left; simp [Tx.Rollback]
    | ok w =>
      cases cf with
      | some e => left; simp [Tx.Commit]
      | none => right; exact ⟨s1, w, rfl, by simp [Tx.Commit]⟩

theorem update_db_of_not_ok {σ : Type} (bf cf : Option Error) (db : Store) (s : σ)
    (fn : Store → σ → σ × Res Store) (h : (update bf cf db s fn).res ≠ .ok ()) :
    (update bf cf db s fn).db = db := by
  unfold update beginTx at h ⊢
  cases bf with
  | some e => rfl
  | none =>
    simp only at h ⊢
    rcases hfn : fn db s with ⟨s1, r⟩
    rw [hfn] at h
    cases r with
    | err e => simp [Tx.Rollback]
    | panic => simp [Tx.Rollback]
    | stuck => simp [Tx.Rollback]
    | ok w =>
      cases cf with
      | some e => simp [Tx.Commit]
      | none => simp [Tx.Commit] at h

theorem checked_db (r : Res Unit) (db : Store) (out : List Event) :
    (checked r db out).db = db := by
  cases r <;> rfl

theorem unchecked_db (r : Res Unit) (db : Store) (out : List Event) :
    (unchecked r db out).db = db := by
  cases r <;> rfl

theorem written_trans {a b c : Store} {k : Bytes} (h : Written a c k) :
    Written a b k ∨ Written b c k := by
  unfold Written at *
  by_cases hb : valueAt b [bucket] k = valueAt a [bucket] k
  · right
    rw [hb]
    exact h
  · left
    exact hb

theorem not_written_self (db : Store) (k : Bytes) : ¬ Written db db k := fun h => h rfl

theorem not_written_of_eq {db db1 : Store} (h : db1 = db) (k : Bytes) : ¬ Written db db1 k := by
  subst h
  exact not_written_self _ k

theorem not_written_other {p : Path} (hp : [bucket] ≠ p) (d : BucketData) (db : Store)
    (k : Bytes) : ¬ Written db (setBucket p d db) k := by
  unfold Written
  rw [valueAt_setBucket_other hp]
  exact fun h => h rfl

theorem isIdKey_i2b (v : Int) : IsIdKey (i2b v) :=
  ⟨rfl, toUint64 v, toUint64_lt v, rfl⟩

theorem createUser_db (env : Env) (i : Nat) (u : User) (db : Store) :
    (createUser env i u db).db = db ∨
      ∃ d buf, findBucket [bucket] db = some d ∧
        (createUser env i u db).state.Id = toInt (incr64 d.sequence) ∧
        (createUser env i u db).db = afterCreate d buf db := by
  by_cases h : (createUser env i u db).res = .ok ()
  · right
    obtain ⟨d, buf, hf, h1, h2, h3, h4, hm⟩ := createUser_ok h
    exact ⟨d, buf, hf, by rw [createUser_run hf h1 h2 h3 h4 hm],
      by rw [createUser_run hf h1 h2 h3 h4 hm]⟩
  · left
    exact update_db_of_not_ok _ _ _ _ _ h

/-- The only key of the `users` bucket a call of `createUser` writes is
`i2b` of the assigned `Id`. -/
theorem createUser_written {env : Env} {i : Nat} {u : User} {db : Store} {k : Bytes}
    (h : Written db (createUser env i u db).db k) :
    k = i2b (createUser env i u db).state.Id := by
  rcases createUser_db env i u db with hdb | ⟨d, buf, hf, hid, hdb⟩
  · exact absurd h (not_written_of_eq hdb k)
  · rw [hid]
    by_contra hne
    apply h
    rw [hdb]
    unfold afterCreate
    rw [valueAt_setBucket_same, lookupPair_insertPair_other hne]
    simp only [valueAt, hf]

theorem put_ok {f : Option Error} {s w : Store} {b : Option Path} {k v : Bytes}
    (h : put f s b k v = .ok w) :
    ∃ p d, b = some p ∧ findBucket p s = some d ∧
      w = setBucket p ⟨insertPair k v d.pairs, d.sequence⟩ s := by
  unfold put at h
  cases b with
  | none => simp at h
  | some p =>
    cases hf : findBucket p s with
    | none => simp [hf] at h
    | some d =>
      cases f with
      | some e => simp [hf] at h
      | none =>
        simp only [hf, Res.ok.injEq] at h
        exact ⟨p, d, rfl, hf, h.symm⟩

theorem openBucket_root {s : Store} {n : Bytes} {p : Path} (h : openBucket s [] n = some p) :
    p = [n] := by
  unfold openBucket at h
  split_ifs at h
  simp only [List.nil_append, Option.some.injEq] at h
  exact h.symm

theorem createBucket_ok {f : Option Error} {s w : Store} {parent p : Path} {n : Bytes}
    (h : createBucket f s parent n = .ok (w, p)) :
    w = setBucket (parent ++ [n]) ⟨[], 0⟩ s ∧ findBucket (parent ++ [n]) s = none := by
  unfold createBucket at h
  cases f with
  | some e => simp at h
  | none =>
    simp only at h
    split_ifs at h with hex
    simp only [Res.ok.injEq, Prod.mk.injEq] at h
    refine ⟨h.1.symm, ?_⟩
    cases hfb : findBucket (parent ++ [n]) s with
    | none => rfl
    | some d => simp [hfb] at hex

theorem openStep_db (env : Env) (db : Store) (out : List Event) :
    (openStep env db out).db = db := by
  unfold openStep
  cases env.fault .openDb <;> rfl

theorem createStep_written (env : Env) (db : Store) (out : List Event) (k : Bytes) :
    ¬ Written db (createStep env db out).db k := by
  unfold createStep
  simp only [checked_db]
  rcases update_db (env.fault .createBegin) (env.fault .createCommit) db ()
    (fun tx s =>
      match createBucket (env.fault .createBucket) tx [] bucket with
      | .ok (tx1, _) => (s, .ok tx1)
      | .err e => (s, .err (.wrapped e))
      | .panic => (s, .panic)
      | .stuck => (s, .stuck)) with h | ⟨s1, w, hfn, h⟩
  · exact not_written_of_eq h k
  · rw [h]
    cases hc : createBucket (env.fault .createBucket) db [] bucket with
    | err e => simp [hc] at hfn
    | panic => simp [hc] at hfn
    | stuck => simp [hc] at hfn
    | ok a =>
      obtain ⟨w1, p⟩ := a
      simp only [hc, Prod.mk.injEq, Res.ok.injEq, true_and] at hfn
      obtain ⟨hw, hnone⟩ := createBucket_ok hc
      simp only [List.nil_append] at hw hnone
      rw [← hfn, hw]
      unfold Written
      simp [valueAt, findBucket_setBucket_same, hnone, lookupPair]

theorem putStep_written {env : Env} {db : Store} {out : List Event} {k : Bytes}
    (h : Written db (putStep env db out).db k) : k = lit "user_1" := by
  unfold putStep at h
  simp only [checked_db] at h
  rcases update_db (env.fault .putBegin) (env.fault .putCommit) db ()
    (fun tx s => (s, put (env.fault .putUser) tx (openBucket tx [] bucket) (lit "user_1")
      (lit "wuYin"))) with hdb | ⟨s1, w, hfn, hdb⟩
  · exact absurd h (not_written_of_eq hdb k)
  · rw [hdb] at h
    simp only [Prod.mk.injEq, true_and] at hfn
    obtain ⟨p, d, hb, hf, hw⟩ := put_ok hfn
    have hp := openBucket_root hb
    subst hp
    by_contra hne
    apply h
    rw [hw, valueAt_setBucket_same, lookupPair_insertPair_other hne]
    simp only [valueAt, hf]

theorem getStep_db (env : Env) (db : Store) (out : List Event) :
    (getStep env db out).db = db := by
  unfold getStep
  simp only [checked_db]

theorem iterStep_db (env : Env) (db : Store) (out : List Event) :
    (iterStep env db out).db = db := by
  unfold iterStep
  simp only [unchecked_db]

theorem prefixStep_db (env : Env) (db : Store) (out : List Event) :
    (prefixStep env db out).db = db := by
  unfold prefixStep
  simp only [unchecked_db]

theorem rangeStep_db (env : Env) (db : Store) (out : List Event) :
    (rangeStep env db out).db = db := by
  unfold rangeStep
  simp only [unchecked_db]

theorem eachStep_db (env : Env) (db : Store) (out : List Event) :
    (eachStep env db out).db = db := by
  unfold eachStep
  simp only [unchecked_db]

theorem userLoop_written (env : Env) (n i : Nat) (db : Store) (out : List Event) (k : Bytes)
    (h : Written db (userLoop env n i db out).db k) : IsIdKey k := by
  induction n generalizing i db with
  | zero => exact absurd h (not_written_self db k)
  | succ m ih =>
    rw [userLoop_succ] at h
    by_cases hok : (checked (createUser env i (newUser i) db).res
        (createUser env i (newUser i) db).db out).status = .ok
    · rw [andThen_eq_of_ok _ hok] at h
      simp only [checked_db] at h
      have hout : (checked (createUser env i (newUser i) db).res
          (createUser env i (newUser i) db).db out).out = out := by
        cases (createUser env i (newUser i) db).res <;> rfl
      rw [hout] at h
      rcases written_trans (b := (createUser env i (newUser i) db).db) h with h1 | h2
      · rw [createUser_written h1]
        exact isIdKey_i2b _
      · exact ih (i + 1) _ h2
    · rw [andThen_of_not_ok _ _ hok] at h
      simp only [checked_db] at h
      rw [createUser_written h]
      exact isIdKey_i2b _

theorem nestedStep_written (env : Env) (db : Store) (out : List Event) (k : Bytes) :
    ¬ Written db (nestedStep env db out).db k := by
  unfold nestedStep
  simp only [checked_db]
  rcases update_db (env.fault .nestedBegin) (env.fault .nestedCommit) db ()
    (fun tx s =>
      match createBucket (env.fault .nestedCreate) tx [] (formatUint 10) with
      | .ok (tx1, _) => (s, .ok tx1)
      | .err e => (s, .err e)
      | .panic => (s, .panic)
      | .stuck => (s, .stuck)) with h | ⟨s1, w, hfn, h⟩
  · exact not_written_of_eq h k
  · rw [h]
    cases hc : createBucket (env.fault .nestedCreate) db [] (formatUint 10) with
    | err e => simp [hc] at hfn
    | panic => simp [hc] at hfn
    | stuck => simp [hc] at hfn
    | ok a =>
      obtain ⟨w1, p⟩ := a
      simp only [hc, Prod.mk.injEq, Res.ok.injEq, true_and] at hfn
      obtain ⟨hw, _⟩ := createBucket_ok hc
      rw [← hfn, hw]
      exact not_written_other (by decide) _ _ _

theorem manualStep_written (env : Env) (db : Store) (out : List Event) (k : Bytes) :
    ¬ Written db (manualStep env db out).db k := by
  unfold manualStep
  simp only [checked_db]
  have hp : [bucket] ≠ adminsPath := by
    unfold adminsPath
    simp
  rcases manualBlock_cases env db with h | h
  · exact not_written_of_eq h.1 k
  · rw [h.2.2.2]
    unfold Written
    rw [valueAt_setBucket_other hp, valueAt_setBucket_other hp, valueAt_setBucket_other hp]
    exact fun h => h rfl

/-- Sequencing keeps a bound on the keys written. -/
theorem andThen_written {P : Bytes → Prop} {db : Store} {r : Run}
    {f : Store → List Event → Run}
    (hr : ∀ k, Written db r.db k → P k)
    (hf : ∀ db1 out1 k, Written db1 (f db1 out1).db k → P k) :
    ∀ k, Written db (r.andThen f).db k → P k := by
  intro k h
  by_cases hok : r.status = .ok
  · rw [andThen_eq_of_ok f hok] at h
    rcases written_trans (b := r.db) h with h1 | h2
    · exact hr k h1
    · exact hf _ _ k h2
  · rw [andThen_of_not_ok r f hok] at h
    exact hr k h

/-- C6 (as amended): every key of the `users` bucket that a call of
`createUser` writes is `i2b` of the assigned `Id`, exactly 8 bytes long and the
big-endian encoding of an unsigned 64-bit integer; every key of the `users`
bucket that a run of `main` writes is such a key or the 6-byte key "user_1" of
the `Put` of `main` itself. -/
theorem written_keys (env : Env) (db : Store) (k : Bytes) :
    (∀ i u, Written db (createUser env i u db).db k →
        k = i2b (createUser env i u db).state.Id ∧ IsIdKey k) ∧
      (Written db (main env db).db k → k = lit "user_1" ∨ IsIdKey k) := by
  constructor
  · intro i u h
    have hk := createUser_written h
    exact ⟨hk, by rw [hk]; exact isIdKey_i2b _⟩
  · revert k
    unfold main
    refine andThen_written (andThen_written (andThen_written (andThen_written (andThen_written
      (andThen_written (andThen_written (andThen_written (andThen_written (andThen_written
      ?_ ?_) ?_) ?_) ?_) ?_) ?_) ?_) ?_) ?_) ?_
    · intro k h
      exact absurd h (not_written_of_eq (openStep_db env db []) k)
    · intro db1 out1 k h
      exact absurd h (createStep_written env db1 out1 k)
    · intro db1 out1 k h
      exact Or.inl (putStep_written h)
    · intro db1 out1 k h
      exact absurd h (not_written_of_eq (getStep_db env db1 out1) k)
    · intro db1 out1 k h
      exact Or.inr (userLoop_written env 3 0 db1 out1 k h)
    · intro db1 out1 k h
      exact absurd h (not_written_of_eq (iterStep_db env db1 out1) k)
    · intro db1 out1 k h
      exact absurd h (not_written_of_eq (prefixStep_db env db1 out1) k)
    · intro db1 out1 k h
      exact absurd h (not_written_of_eq (rangeStep_db env db1 out1) k)
    · intro db1 out1 k h
      exact absurd h (not_written_of_eq (eachStep_db env db1 out1) k)
    · intro db1 out1 k h
      exact absurd h (nestedStep_written env db1 out1 k)
    · intro db1 out1 k h
      exact absurd h (manualStep_written env db1 out1 k)

set_option maxRecDepth 100000 in
/-- C6 on a run of `main` from an empty database: the key of the user with id
2 is written and is an id key. -/
theorem written_keys_witness :
    Written [] (main calm []).db (i2b 2) ∧ (i2b 2 = lit "user_1" ∨ IsIdKey (i2b 2)) := by
  have h : Written [] (main calm []).db (i2b 2) := by
    unfold Written
    have h1 : valueAt (main calm []).db [bucket] (i2b 2)
        = some (jsonBytes ⟨2, lit "user_1", 10⟩) := by rfl
    rw [h1]
    simp [valueAt, findBucket]
  exact ⟨h, (written_keys calm [] (i2b 2)).2 h⟩

set_option maxRecDepth 100000 in
/-- C6 as stated fails: a run of `main` from an empty database writes the key
"user_1" into the `users` bucket, which is 6 bytes long, not 8. -/
theorem main_writes_short_key :
    Written [] (main calm []).db (lit "user_1") ∧ (lit "user_1").length = 6 ∧
      ¬ IsIdKey (lit "user_1") := by
  refine ⟨?_, rfl, ?_⟩
  · unfold Written
    have h1 : valueAt (main calm []).db [bucket] (lit "user_1") = some (lit "wuYin") := by rfl
    rw [h1]
    simp [valueAt, findBucket]
  · intro h
    have := h.1
    simp [lit] at this

/-! ## The run of `main` statement by statement -/

theorem main_eq_runSteps (env : Env) (db : Store) :
    main env db = runSteps (openStep env db []) (steps env) := rfl

theorem loopEntry_eq (env : Env) (db : Store) :
    loopEntry env db
      = (((openStep env db []).andThen (createStep env)).andThen (putStep env)).andThen
          (getStep env) := rfl

theorem runSteps_of_not_ok (r : Run) (fs : List (Store → List Event → Run))
    (h : r.status ≠ .ok) : runSteps r fs = r := by
  induction fs with
  | nil => rfl
  | cons f rest ih =>
    unfold runSteps at ih ⊢
    rw [List.foldl_cons, andThen_of_not_ok r f h]
    exact ih

theorem runSteps_append (r : Run) (fs gs : List (Store → List Event → Run)) :
    runSteps r (fs ++ gs) = runSteps (runSteps r fs) gs := by
  unfold runSteps
  rw [List.foldl_append]

/-- Once a statement has stopped the run, no later statement runs: `main`
ends as the run stood then. -/
theorem main_eq_mainUpTo (k : Nat) (env : Env) (db : Store)
    (h : (mainUpTo k env db).status ≠ .ok) : main env db = mainUpTo k env db := by
  rw [main_eq_runSteps]
  conv_lhs => rw [← List.take_append_drop k (steps env)]
  rw [runSteps_append]
  exact runSteps_of_not_ok _ _ h

theorem update_ok {σ : Type} {bf cf : Option Error} {db : Store} {s : σ}
    {fn : Store → σ → σ × Res Store} (h : (update bf cf db s fn).res = .ok ()) :
    bf = none ∧ cf = none ∧ ∃ s1 w, fn db s = (s1, .ok w) ∧ (update bf cf db s fn).db = w := by
  unfold update beginTx at h ⊢
  cases bf with
  | some e => simp at h
  | none =>
    simp only at h ⊢
    rcases hfn : fn db s with ⟨s1, r⟩
    rw [hfn] at h
    cases r with
    | err e => simp at h
    | panic => simp at h
    | stuck => simp at h
    | ok w =>
      cases cf with
      | some e => simp [Tx.Commit] at h
      | none => exact ⟨trivial, rfl, s1, w, rfl, by simp [Tx.Commit]⟩

theorem update_ok_or_err {σ : Type} (bf cf : Option Error) (db : Store) (s : σ)
    (fn : Store → σ → σ × Res Store)
    (h : (fn db s).2 ≠ .panic ∧ (fn db s).2 ≠ .stuck) :
    (update bf cf db s fn).res = .ok () ∨ ∃ e, (update bf cf db s fn).res = .err e := by
  unfold update beginTx
  cases bf with
  | some e => exact Or.inr ⟨e, rfl⟩
  | none =>
    simp only
    rcases hfn : fn db s with ⟨s1, r⟩
    rw [hfn] at h
    cases r with
    | err e => exact Or.inr ⟨e, rfl⟩
    | panic => exact absurd rfl h.1
    | stuck => exact absurd rfl h.2
    | ok w =>
      cases cf with
      | some e => exact Or.inr ⟨e, by simp [Tx.Commit]⟩
      | none => exact Or.inl (by simp [Tx.Commit])

theorem createBucket_ok_or_err (f : Option Error) (s : Store) (parent : Path) (n : Bytes) :
    (∃ a, createBucket f s parent n = .ok a) ∨ ∃ e, createBucket f s parent n = .err e := by
  unfold createBucket
  cases f with
  | some e => exact Or.inr ⟨e, rfl⟩
  | none =>
    simp only
    split_ifs
    · exact Or.inr ⟨_, rfl⟩
    · exact Or.inl ⟨_, rfl⟩

theorem checked_fine {r : Res Unit} {db : Store} {out : List Event} {Q : Store → Prop}
    (h1 : r = .ok () ∨ ∃ e, r = .err e) (h2 : r = .ok () → Q db) :
    Fine (checked r db out) Q := by
  rcases h1 with h | ⟨e, h⟩
  · subst h
    exact ⟨Or.inl rfl, fun _ => h2 rfl⟩
  · subst h
    exact ⟨Or.inr ⟨e, rfl⟩, fun hs => by simp [checked] at hs⟩

theorem fine_mono {r : Run} {Q Q2 : Store → Prop} (h : Fine r Q) (hq : ∀ s, Q s → Q2 s) :
    Fine r Q2 :=
  ⟨h.1, fun hs => hq _ (h.2 hs)⟩

theorem fine_andThen {r : Run} {f : Store → List Event → Run} {Q Q2 : Store → Prop}
    (hr : Fine r Q) (hf : ∀ db out, Q db → Fine (f db out) Q2) : Fine (r.andThen f) Q2 := by
  by_cases hok : r.status = .ok
  · rw [andThen_eq_of_ok f hok]
    exact hf _ _ (hr.2 hok)
  · rw [andThen_of_not_ok r f hok]
    exact ⟨hr.1, fun hs => absurd hs hok⟩

theorem openStep_fine (env : Env) (db : Store) (out : List Event) :
    Fine (openStep env db out) (fun s => env.fault .openDb = none ∧ s = db) := by
  unfold openStep
  cases h : env.fault .openDb with
  | some e => exact ⟨Or.inr ⟨e, rfl⟩, fun hs => by simp at hs⟩
  | none => exact ⟨Or.inl rfl, fun _ => ⟨rfl, rfl⟩⟩

theorem createStep_fine (env : Env) (db : Store) (out : List Event) :
    Fine (createStep env db out) (fun s =>
      (env.fault .createBegin = none ∧ env.fault .createBucket = none ∧
        env.fault .createCommit = none ∧ findBucket [bucket] db = none) ∧
      s = setBucket [bucket] ⟨[], 0⟩ db) := by
  unfold createStep
  apply checked_fine
  · apply update_ok_or_err
    have hres := createBucket_ok_or_err (env.fault .createBucket) db [] bucket
    rcases hres with ⟨a, ha⟩ | ⟨e, ha⟩ <;> simp [ha]
  · intro h
    obtain ⟨hb, hc, s1, w, hfn, hdb⟩ := update_ok h
    cases hcb : createBucket (env.fault .createBucket) db [] bucket with
    | err e => simp [hcb] at hfn
    | panic => simp [hcb] at hfn
    | stuck => simp [hcb] at hfn
    | ok a =>
      obtain ⟨w1, p⟩ := a
      simp only [hcb, Prod.mk.injEq, Res.ok.injEq, true_and] at hfn
      obtain ⟨hw, hnone⟩ := createBucket_ok hcb
      simp only [List.nil_append] at hw hnone
      have hfault : env.fault .createBucket = none := by
        cases hf : env.fault .createBucket with
        | none => rfl
        | some e => simp [createBucket, hf] at hcb
      refine ⟨⟨hb, hfault, hc, hnone⟩, ?_⟩
      rw [hdb, ← hfn, hw]

theorem openBucket_users {db : Store} {d : BucketData} (h : findBucket [bucket] db = some d) :
    openBucket db [] bucket = some [bucket] :=
  openBucket_eq_some (by simpa using h)

theorem putStep_fine (env : Env) (db : Store) (out : List Event) (d : BucketData)
    (hu : findBucket [bucket] db = some d) :
    Fine (putStep env db out) (fun s =>
      (env.fault .putBegin = none ∧ env.fault .putUser = none ∧ env.fault .putCommit = none) ∧
      s = setBucket [bucket] ⟨insertPair (lit "user_1") (lit "wuYin") d.pairs, d.sequence⟩ db) := by
  unfold putStep
  have ho := openBucket_users hu
  apply checked_fine
  · apply update_ok_or_err
    simp only [ho, put, hu]
    cases env.fault .putUser <;> simp
  · intro h
    obtain ⟨hb, hc, s1, w, hfn, hdb⟩ := update_ok h
    simp only [ho, put, hu, Prod.mk.injEq] at hfn
    have hp : env.fault .putUser = none := by
      cases hp : env.fault .putUser with
      | none => rfl
      | some e => simp [hp] at hfn
    simp only [hp, Res.ok.injEq] at hfn
    refine ⟨⟨hb, hp, hc⟩, ?_⟩
    rw [hdb, ← hfn.2]

theorem getStep_fine (env : Env) (db : Store) (out : List Event) (d : BucketData)
    (hu : findBucket [bucket] db = some d) :
    Fine (getStep env db out) (fun s => env.fault .getView = none ∧ s = db) := by
  unfold getStep view
  have ho := openBucket_users hu
  cases hv : env.fault .getView with
  | some e => exact ⟨Or.inr ⟨e, rfl⟩, fun hs => by simp [checked] at hs⟩
  | none =>
    simp only [ho, get, hu]
    exact ⟨Or.inl rfl, fun _ => ⟨trivial, rfl⟩⟩

theorem createUser_ok_or_err (env : Env) (i : Nat) (u : User) (db : Store) (d : BucketData)
    (hu : findBucket [bucket] db = some d) :
    (createUser env i u db).res = .ok () ∨ ∃ e, (createUser env i u db).res = .err e := by
  unfold createUser
  have ho := openBucket_users hu
  apply update_ok_or_err
  simp only [ho, nextSequence, hu]
  cases env.fault (.userSeq i) with
  | some e => simp
  | none =>
    simp only
    cases env.marshal { u with Id := toInt (incr64 d.sequence) } with
    | error e => simp
    | ok buf =>
      simp only [put, findBucket_setBucket_same]
      cases env.fault (.userPut i) <;> simp

theorem findBucket_afterCreate_other {p : Path} (hp : p ≠ [bucket]) (d : BucketData)
    (buf : Bytes) (db : Store) : findBucket p (afterCreate d buf db) = findBucket p db := by
  unfold afterCreate
  rw [findBucket_setBucket_other hp, findBucket_setBucket_other hp]

theorem userLoop_fine (env : Env) (n i : Nat) (db : Store) (out : List Event) (d : BucketData)
    (hu : findBucket [bucket] db = some d) :
    Fine (userLoop env n i db out) (fun s =>
      (∀ j, i ≤ j → j < i + n →
        env.fault (.userBegin j) = none ∧ env.fault (.userSeq j) = none ∧
        env.fault (.userPut j) = none ∧ env.fault (.userCommit j) = none) ∧
      (∃ d2, findBucket [bucket] s = some d2) ∧
      ∀ p, p ≠ [bucket] → findBucket p s = findBucket p db) := by
  induction n generalizing i db d out with
  | zero =>
    refine ⟨Or.inl rfl, fun _ => ⟨fun j h1 h2 => ?_, ⟨d, hu⟩, fun p _ => rfl⟩⟩
    omega
  | succ m ih =>
    rw [userLoop_succ]
    have hfirst : Fine (checked (createUser env i (newUser i) db).res
        (createUser env i (newUser i) db).db out) (fun s =>
          (env.fault (.userBegin i) = none ∧ env.fault (.userSeq i) = none ∧
            env.fault (.userPut i) = none ∧ env.fault (.userCommit i) = none) ∧
          (∃ d2, findBucket [bucket] s = some d2) ∧
          ∀ p, p ≠ [bucket] → findBucket p s = findBucket p db) := by
      apply checked_fine (createUser_ok_or_err env i (newUser i) db d hu)
      intro hok
      obtain ⟨d1, buf, hf, h1, h2, h3, h4, hm⟩ := createUser_ok hok
      rw [createUser_run hf h1 h2 h3 h4 hm]
      exact ⟨⟨h1, h2, h3, h4⟩, ⟨_, findBucket_afterCreate d1 buf db⟩,
        fun p hp => findBucket_afterCreate_other hp d1 buf db⟩
    apply fine_andThen hfirst
    intro db1 out1 hq
    obtain ⟨hfi, ⟨d2, hd2⟩, hframe⟩ := hq
    apply fine_mono (ih (i + 1) db1 out1 d2 hd2)
    intro s hs
    obtain ⟨hfj, hex, hfr⟩ := hs
    refine ⟨fun j h1 h2 => ?_, hex, fun p hp => ?_⟩
    · by_cases hji : j = i
      · subst hji
        exact hfi
      · exact hfj j (by omega) (by omega)
    · rw [hfr p hp, hframe p hp]

theorem iterLoop_some (fuel : Nat) (items rest : List (Bytes × Bytes)) (out : List Event)
    (hfuel : rest.length < fuel) :
    ∃ o, iterLoop fuel ⟨items, rest⟩ rest.head? out = some o := by
  induction fuel generalizing rest out with
  | zero => omega
  | succ f ih =>
    cases rest with
    | nil => exact ⟨out, by simp [iterLoop]⟩
    | cons kv r =>
      obtain ⟨k, v⟩ := kv
      have hlen : r.length < f := by
        simp only [List.length_cons] at hfuel
        omega
      obtain ⟨o, ho⟩ := ih r (out ++ [Event.iter k v]) hlen
      exact ⟨o, by simpa [iterLoop, Cursor.Next] using ho⟩

theorem rangeScan_some (c : Cursor) (min max : Bytes) (out : List Event) :
    ∃ o, rangeScan c min max out = some o := by
  obtain ⟨items, rest⟩ := c
  unfold rangeScan
  simp only [Cursor.Seek]
  have hlen : (items.dropWhile (fun kv => decide (bytesCompare kv.1 min < 0))).length
      < items.length + 1 := by
    have := (List.dropWhile_sublist (fun kv => decide (bytesCompare kv.1 min < 0))
      (l := items)).length_le
    omega
  exact ⟨_, rangeLoop_eq max _ _ _ out hlen⟩

theorem cursor_users {db : Store} {d : BucketData} (hu : findBucket [bucket] db = some d) :
    cursor db (openBucket db [] bucket) = .ok ⟨d.pairs, d.pairs⟩ := by
  rw [openBucket_users hu]
  simp only [cursor, hu]

theorem unchecked_fine {r : Res Unit} {db : Store} {out : List Event}
    (h : r ≠ .panic ∧ r ≠ .stuck) : Fine (unchecked r db out) (fun s => s = db) := by
  cases r with
  | ok a => exact ⟨Or.inl rfl, fun _ => rfl⟩
  | err e => exact ⟨Or.inl rfl, fun _ => rfl⟩
  | panic => exact absurd rfl h.1
  | stuck => exact absurd rfl h.2

theorem iterStep_fine (env : Env) (db : Store) (out : List Event) (d : BucketData)
    (hu : findBucket [bucket] db = some d) :
    Fine (iterStep env db out) (fun s => s = db) := by
  unfold iterStep view
  apply unchecked_fine
  cases env.fault .iterView with
  | some e => simp
  | none =>
    simp only [cursor_users hu, Cursor.First]
    obtain ⟨o, ho⟩ := iterLoop_some (d.pairs.length + 1) d.pairs d.pairs out (by omega)
    simp [ho]

theorem prefixStep_fine (env : Env) (db : Store) (out : List Event) (d : BucketData)
    (hu : findBucket [bucket] db = some d) :
    Fine (prefixStep env db out) (fun s => s = db) := by
  unfold prefixStep view
  apply unchecked_fine
  cases env.fault .prefixView with
  | some e => simp
  | none => simp [cursor_users hu]

theorem rangeStep_fine (env : Env) (db : Store) (out : List Event) (d : BucketData)
    (hu : findBucket [bucket] db = some d) :
    Fine (rangeStep env db out) (fun s => s = db) := by
  unfold rangeStep view
  apply unchecked_fine
  cases env.fault .rangeView with
  | some e => simp
  | none =>
    simp only [cursor_users hu]
    obtain ⟨o, ho⟩ := rangeScan_some ⟨d.pairs, d.pairs⟩ (putUint64 2) (putUint64 3) out
    simp [ho]

theorem forEachPairs_ok {σ : Type} (fn : Bytes → Bytes → σ → σ) (l : List (Bytes × Bytes))
    (s : σ) : (forEachPairs (fun k v o => (fn k v o, none)) l s).2 = .ok () := by
  induction l generalizing s with
  | nil => rfl
  | cons kv rest ih =>
    obtain ⟨k, v⟩ := kv
    simp only [forEachPairs]
    exact ih _

theorem eachStep_fine (env : Env) (db : Store) (out : List Event) (d : BucketData)
    (hu : findBucket [bucket] db = some d) :
    Fine (eachStep env db out) (fun s => s = db) := by
  unfold eachStep view
  apply unchecked_fine
  cases env.fault .eachView with
  | some e => simp
  | none =>
    simp only [forEach, openBucket_users hu, hu]
    cases env.fault .forEach with
    | some e => simp
    | none =>
      simp only
      have h := forEachPairs_ok (fun k v (o1 : List Event) => o1 ++ [Event.each k v]) d.pairs out
      rcases hr : forEachPairs (fun k v (o1 : List Event) => (o1 ++ [Event.each k v], none))
        d.pairs out with ⟨o, r⟩
      rw [hr] at h
      simp only at h
      subst h
      simp

theorem nestedStep_fine (env : Env) (db : Store) (out : List Event) :
    Fine (nestedStep env db out) (fun s =>
      (env.fault .nestedBegin = none ∧ env.fault .nestedCreate = none ∧
        env.fault .nestedCommit = none ∧ findBucket [formatUint 10] db = none) ∧
      s = setBucket [formatUint 10] ⟨[], 0⟩ db) := by
  unfold nestedStep
  apply checked_fine
  · apply update_ok_or_err
    have hres := createBucket_ok_or_err (env.fault .nestedCreate) db [] (formatUint 10)
    rcases hres with ⟨a, ha⟩ | ⟨e, ha⟩ <;> simp [ha]
  · intro h
    obtain ⟨hb, hc, s1, w, hfn, hdb⟩ := update_ok h
    cases hcb : createBucket (env.fault .nestedCreate) db [] (formatUint 10) with
    | err e => simp [hcb] at hfn
    | panic => simp [hcb] at hfn
    | stuck => simp [hcb] at hfn
    | ok a =>
      obtain ⟨w1, p⟩ := a
      simp only [hcb, Prod.mk.injEq, Res.ok.injEq, true_and] at hfn
      obtain ⟨hw, hnone⟩ := createBucket_ok hcb
      simp only [List.nil_append] at hw hnone
      have hfault : env.fault .nestedCreate = none := by
        cases hf : env.fault .nestedCreate with
        | none => rfl
        | some e => simp [createBucket, hf] at hcb
      refine ⟨⟨hb, hfault, hc, hnone⟩, ?_⟩
      rw [hdb, ← hfn, hw]

/-- With the bucket "10" in place the manual transaction returns nil or an
error (it does not panic), and it returns nil only when none of its five calls
failed and the bucket `admins` did not exist. -/
theorem manualBlock_res (env : Env) (db : Store) (d10 : BucketData)
    (h10 : findBucket [formatUint 10] db = some d10) :
    ((manualBlock env db).2 = .ok () ∧
        env.fault .manualBegin = none ∧ env.fault .manualCreate = none ∧
        env.fault .manualSeq = none ∧ env.fault .manualPut = none ∧
        env.fault .manualCommit = none ∧ findBucket adminsPath db = none) ∨
      ∃ e, (manualBlock env db).2 = .err e := by
  unfold manualBlock beginTx
  cases hb : env.fault .manualBegin with
  | some e => exact Or.inr ⟨e, rfl⟩
  | none =>
    simp only
    unfold manualBody
    have ho : openBucket db [] (formatUint 10) = some [formatUint 10] :=
      openBucket_eq_some (by simpa using h10)
    simp only [ho, createBucketIn, createBucket]
    cases hc : env.fault .manualCreate with
    | some e => exact Or.inr ⟨e, rfl⟩
    | none =>
      simp only
      cases ha : findBucket ([formatUint 10] ++ [lit "admins"]) db with
      | some da => exact Or.inr ⟨.bucketExists, by simp⟩
      | none =>
        simp only [Option.isSome_none, Bool.false_eq_true, if_false, nextSequence,
          findBucket_setBucket_same]
        cases hs : env.fault .manualSeq with
        | some e => exact Or.inr ⟨e, rfl⟩
        | none =>
          simp only [put, findBucket_setBucket_same]
          cases hp : env.fault .manualPut with
          | some e => exact Or.inr ⟨e, rfl⟩
          | none =>
            simp only
            cases hm : env.fault .manualCommit with
            | some e => exact Or.inr ⟨e, by simp [Tx.Commit]⟩
            | none =>
              left
              have ha2 : findBucket adminsPath db = none := ha
              simp [Tx.Commit, ha2]

theorem manualStep_fine (env : Env) (db : Store) (out : List Event) (d10 : BucketData)
    (h10 : findBucket [formatUint 10] db = some d10) :
    Fine (manualStep env db out) (fun _ =>
      env.fault .manualBegin = none ∧ env.fault .manualCreate = none ∧
        env.fault .manualSeq = none ∧ env.fault .manualPut = none ∧
        env.fault .manualCommit = none ∧ findBucket adminsPath db = none) := by
  unfold manualStep
  rcases manualBlock_res env db d10 h10 with h | ⟨e, h⟩
  · exact checked_fine (Or.inl h.1) (fun _ => h.2)
  · apply checked_fine (Or.inr ⟨e, h⟩)
    intro hok
    rw [h] at hok
    exact absurd hok (by simp)

theorem iterStep_eq (env : Env) (db : Store) (out : List Event) :
    iterStep env db out = unchecked (iterCall env db out).2 db (iterCall env db out).1 := rfl

theorem prefixStep_eq (env : Env) (db : Store) (out : List Event) :
    prefixStep env db out
      = unchecked (prefixCall env db out).2 db (prefixCall env db out).1 := rfl

theorem rangeStep_eq (env : Env) (db : Store) (out : List Event) :
    rangeStep env db out = unchecked (rangeCall env db out).2 db (rangeCall env db out).1 := rfl

theorem eachStep_eq (env : Env) (db : Store) (out : List Event) :
    eachStep env db out = unchecked (eachCall env db out).2 db (eachCall env db out).1 := rfl

theorem cursor_ne_err (db : Store) (b : Option Path) (e : Error) : cursor db b ≠ .err e := by
  unfold cursor
  cases b with
  | none => simp
  | some p =>
    simp only
    cases findBucket p db <;> simp

theorem iterCall_ne_err (env : Env) (hv : env.fault .iterView = none) (db : Store)
    (out : List Event) (e : Error) : (iterCall env db out).2 ≠ .err e := by
  unfold iterCall view
  rw [hv]
  simp only
  have hc := cursor_ne_err db (openBucket db [] bucket)
  cases hcur : cursor db (openBucket db [] bucket) with
  | err e1 => exact absurd hcur (hc e1)
  | panic => simp
  | stuck => simp
  | ok c =>
    simp only
    cases iterLoop (c.items.length + 1) c.First.1 c.First.2 out <;> simp

theorem prefixCall_ne_err (env : Env) (hv : env.fault .prefixView = none) (db : Store)
    (out : List Event) (e : Error) : (prefixCall env db out).2 ≠ .err e := by
  unfold prefixCall view
  rw [hv]
  simp only
  have hc := cursor_ne_err db (openBucket db [] bucket)
  cases hcur : cursor db (openBucket db [] bucket) with
  | err e1 => exact absurd hcur (hc e1)
  | panic => simp
  | stuck => simp
  | ok c => simp

theorem rangeCall_ne_err (env : Env) (hv : env.fault .rangeView = none) (db : Store)
    (out : List Event) (e : Error) : (rangeCall env db out).2 ≠ .err e := by
  unfold rangeCall view
  rw [hv]
  simp only
  have hc := cursor_ne_err db (openBucket db [] bucket)
  cases hcur : cursor db (openBucket db [] bucket) with
  | err e1 => exact absurd hcur (hc e1)
  | panic => simp
  | stuck => simp
  | ok c =>
    simp only
    cases rangeScan c (putUint64 2) (putUint64 3) out <;> simp

theorem forEachCall_ne_err (env : Env) (hv : env.fault .forEach = none) (db : Store)
    (out : List Event) (e : Error) : (forEachCall env db out).2 ≠ .err e := by
  unfold forEachCall forEach
  cases openBucket db [] bucket with
  | none => simp
  | some p =>
    simp only
    cases findBucket p db with
    | none => simp
    | some d =>
      simp only [hv]
      rw [forEachPairs_ok (fun k v (o1 : List Event) => o1 ++ [Event.each k v]) d.pairs out]
      simp

theorem eachCall_ne_err (env : Env) (hv : env.fault .eachView = none) (db : Store)
    (out : List Event) (e : Error) : (eachCall env db out).2 ≠ .err e := by
  unfold eachCall view
  rw [hv]
  simp only
  rcases hr : forEachCall env db out with ⟨o, r⟩
  cases r <;> simp

theorem entryStore_users (db : Store) :
    findBucket [bucket] (entryStore db) = some ⟨[(lit "user_1", lit "wuYin")], 0⟩ := by
  unfold entryStore
  rw [findBucket_setBucket_same]

theorem entryStore_other {p : Path} (hp : p ≠ [bucket]) (db : Store) :
    findBucket p (entryStore db) = findBucket p db := by
  unfold entryStore
  rw [findBucket_setBucket_other hp, findBucket_setBucket_other hp]

/-- The run of `main` up to the creating loop either was stopped by
`pp.Fatal` or got there with no call having failed, on a fresh `users` bucket
that holds the pair of line 53 and has its counter at 0. -/
theorem loopEntry_fine (env : Env) (db : Store) :
    Fine (loopEntry env db) (fun s =>
      (env.fault .openDb = none ∧
        (env.fault .createBegin = none ∧ env.fault .createBucket = none ∧
          env.fault .createCommit = none ∧ findBucket [bucket] db = none) ∧
        (env.fault .putBegin = none ∧ env.fault .putUser = none ∧
          env.fault .putCommit = none) ∧
        env.fault .getView = none) ∧
      s = entryStore db) := by
  rw [loopEntry_eq]
  have h0 := openStep_fine env db []
  have h1 : Fine ((openStep env db []).andThen (createStep env)) (fun s =>
      (env.fault .openDb = none ∧
        (env.fault .createBegin = none ∧ env.fault .createBucket = none ∧
          env.fault .createCommit = none ∧ findBucket [bucket] db = none)) ∧
      s = setBucket [bucket] ⟨[], 0⟩ db) := by
    apply fine_andThen h0
    intro db1 out1 hq
    obtain ⟨ho, hdb⟩ := hq
    subst hdb
    exact fine_mono (createStep_fine env db1 out1) (fun s hs => ⟨⟨ho, hs.1⟩, hs.2⟩)
  have h2 : Fine (((openStep env db []).andThen (createStep env)).andThen (putStep env))
      (fun s =>
        (env.fault .openDb = none ∧
          (env.fault .createBegin = none ∧ env.fault .createBucket = none ∧
            env.fault .createCommit = none ∧ findBucket [bucket] db = none) ∧
          (env.fault .putBegin = none ∧ env.fault .putUser = none ∧
            env.fault .putCommit = none)) ∧
        s = entryStore db) := by
    apply fine_andThen h1
    intro db1 out1 hq
    obtain ⟨hp, hdb⟩ := hq
    subst hdb
    exact fine_mono
      (putStep_fine env _ out1 ⟨[], 0⟩ (findBucket_setBucket_same [bucket] ⟨[], 0⟩ db))
      (fun s hs => ⟨⟨hp.1, hp.2, hs.1⟩, hs.2⟩)
  apply fine_andThen h2
  intro db1 out1 hq
  obtain ⟨hp, hdb⟩ := hq
  subst hdb
  exact fine_mono (getStep_fine env _ out1 _ (entryStore_users db))
    (fun s hs => ⟨⟨hp.1, hp.2.1, hp.2.2, hs.1⟩, hs.2⟩)

theorem fine_andThen_same {r : Run} {f : Store → List Event → Run} {P : Prop}
    {I : Store → Prop} (hr : Fine r (fun s => P ∧ I s))
    (hf : ∀ db out, I db → Fine (f db out) (fun s => s = db)) :
    Fine (r.andThen f) (fun s => P ∧ I s) := by
  apply fine_andThen hr
  intro db1 out1 hq
  apply fine_mono (hf db1 out1 hq.2)
  intro s hs
  subst hs
  exact hq

theorem main_eq_chain (env : Env) (db : Store) :
    main env db
      = ((((((((loopEntry env db).andThen (userLoop env 3 0)).andThen (iterStep env)).andThen
          (prefixStep env)).andThen (rangeStep env)).andThen (eachStep env)).andThen
          (nestedStep env)).andThen (manualStep env)) := rfl

/-- A run of `main` ends normally or through `pp.Fatal`, and it ends normally
only when every call whose error it checks returned nil. -/
theorem main_fine (env : Env) (db : Store) :
    Fine (main env db) (fun _ =>
      (((env.fault .openDb = none ∧
        (env.fault .createBegin = none ∧ env.fault .createBucket = none ∧
          env.fault .createCommit = none ∧ findBucket [bucket] db = none) ∧
        (env.fault .putBegin = none ∧ env.fault .putUser = none ∧
          env.fault .putCommit = none) ∧
        env.fault .getView = none) ∧
        (∀ j, j < 3 →
        env.fault (.userBegin j) = none ∧ env.fault (.userSeq j) = none ∧
        env.fault (.userPut j) = none ∧ env.fault (.userCommit j) = none)) ∧
        (env.fault .nestedBegin = none ∧ env.fault .nestedCreate = none ∧
        env.fault .nestedCommit = none ∧ findBucket [formatUint 10] db = none)) ∧
      (env.fault .manualBegin = none ∧ env.fault .manualCreate = none ∧
        env.fault .manualSeq = none ∧ env.fault .manualPut = none ∧
        env.fault .manualCommit = none ∧ findBucket adminsPath db = none)) := by
  rw [main_eq_chain]
  have h3 := loopEntry_fine env db
  have h4 : Fine ((loopEntry env db).andThen (userLoop env 3 0)) (fun s =>
      ((env.fault .openDb = none ∧
        (env.fault .createBegin = none ∧ env.fault .createBucket = none ∧
          env.fault .createCommit = none ∧ findBucket [bucket] db = none) ∧
        (env.fault .putBegin = none ∧ env.fault .putUser = none ∧
          env.fault .putCommit = none) ∧
        env.fault .getView = none) ∧
        (∀ j, j < 3 →
        env.fault (.userBegin j) = none ∧ env.fault (.userSeq j) = none ∧
        env.fault (.userPut j) = none ∧ env.fault (.userCommit j) = none)) ∧
      ((∃ d, findBucket [bucket] s = some d) ∧
        ∀ p, p ≠ [bucket] → findBucket p s = findBucket p db)) := by
    apply fine_andThen h3
    intro db1 out1 hq
    obtain ⟨hp, hdb⟩ := hq
    subst hdb
    apply fine_mono (userLoop_fine env 3 0 _ out1 _ (entryStore_users db))
    intro s hs
    obtain ⟨hu, hex, hfr⟩ := hs
    refine ⟨⟨hp, fun j hj => hu j (by omega) (by omega)⟩, hex, fun p hpne => ?_⟩
    rw [hfr p hpne, entryStore_other hpne]
  have h5 := fine_andThen_same (f := iterStep env) h4
    (fun db1 out1 hI => by
      obtain ⟨⟨d, hd⟩, _⟩ := hI
      exact iterStep_fine env db1 out1 d hd)
  have h6 := fine_andThen_same (f := prefixStep env) h5
    (fun db1 out1 hI => by
      obtain ⟨⟨d, hd⟩, _⟩ := hI
      exact prefixStep_fine env db1 out1 d hd)
  have h7 := fine_andThen_same (f := rangeStep env) h6
    (fun db1 out1 hI => by
      obtain ⟨⟨d, hd⟩, _⟩ := hI
      exact rangeStep_fine env db1 out1 d hd)
  have h8 := fine_andThen_same (f := eachStep env) h7
    (fun db1 out1 hI => by
      obtain ⟨⟨d, hd⟩, _⟩ := hI
      exact eachStep_fine env db1 out1 d hd)
  have hten : [formatUint 10] ≠ [bucket] := by decide
  have hadm : adminsPath ≠ [bucket] := by
    unfold adminsPath
    simp
  have hadm10 : adminsPath ≠ [formatUint 10] := by
    unfold adminsPath
    simp
  have h9 : Fine (((((((loopEntry env db).andThen (userLoop env 3 0)).andThen
      (iterStep env)).andThen (prefixStep env)).andThen (rangeStep env)).andThen
      (eachStep env)).andThen (nestedStep env)) (fun s =>
      (((env.fault .openDb = none ∧
        (env.fault .createBegin = none ∧ env.fault .createBucket = none ∧
          env.fault .createCommit = none ∧ findBucket [bucket] db = none) ∧
        (env.fault .putBegin = none ∧ env.fault .putUser = none ∧
          env.fault .putCommit = none) ∧
        env.fault .getView = none) ∧
        (∀ j, j < 3 →
        env.fault (.userBegin j) = none ∧ env.fault (.userSeq j) = none ∧
        env.fault (.userPut j) = none ∧ env.fault (.userCommit j) = none)) ∧
        (env.fault .nestedBegin = none ∧ env.fault .nestedCreate = none ∧
        env.fault .nestedCommit = none ∧ findBucket [formatUint 10] db = none)) ∧
      ((∃ d10, findBucket [formatUint 10] s = some d10) ∧
        findBucket adminsPath s = findBucket adminsPath db)) := by
    apply fine_andThen h8
    intro db1 out1 hq
    obtain ⟨hp, _, hfr⟩ := hq
    apply fine_mono (nestedStep_fine env db1 out1)
    intro s hs
    obtain ⟨⟨n1, n2, n3, n4⟩, hs⟩ := hs
    subst hs
    refine ⟨⟨hp, n1, n2, n3, ?_⟩, ⟨_, findBucket_setBucket_same _ _ _⟩, ?_⟩
    · rw [← hfr _ hten]
      exact n4
    · rw [findBucket_setBucket_other hadm10, hfr _ hadm]
  apply fine_andThen h9
  intro db1 out1 hq
  obtain ⟨hp, ⟨d10, h10⟩, hfr⟩ := hq
  apply fine_mono (manualStep_fine env db1 out1 d10 h10)
  intro s hs
  obtain ⟨m1, m2, m3, m4, m5, m6⟩ := hs
  exact ⟨hp, m1, m2, m3, m4, m5, by rw [← hfr]; exact m6⟩

theorem quiet_calm : Quiet calm :=
  ⟨rfl, rfl, rfl, rfl, rfl, fun u => ⟨jsonBytes u, rfl⟩⟩

theorem quiet_putCommitFails : Quiet putCommitFails :=
  ⟨rfl, rfl, rfl, rfl, rfl, fun u => ⟨jsonBytes u, rfl⟩⟩

/-- C5: every error a step of `main` returns is fatal. `db.View` and `ForEach`
have no failure of their own and `json.Marshal` succeeds on a `User` (`Quiet`);
then, for every store: `main` ends normally or through `pp.Fatal`, never
otherwise; it ends normally only if no call returned an error (open, the three
bucket creations, put, the read-only view, and in each `createUser` and in the
manual transaction begin, next-sequence, put and commit); a checked call that
returns an error stops the program with that error, `createUser` and the manual
transaction among them; the calls whose result `main` drops (the four later
views, `ForEach`, the second `json.Marshal`) never return an error; and once a
step has stopped the run the following steps do not run, `main` ends as the run
stood then. -/
theorem main_error_fatal (env : Env) (db : Store) (hq : Quiet env) :
    ((main env db).status = .ok ∨ ∃ e, (main env db).status = .fatal e) ∧
      ((main env db).status = .ok →
        env.fault .openDb = none ∧
        (env.fault .createBegin = none ∧ env.fault .createBucket = none ∧
          env.fault .createCommit = none ∧ findBucket [bucket] db = none) ∧
        (env.fault .putBegin = none ∧ env.fault .putUser = none ∧
          env.fault .putCommit = none) ∧
        env.fault .getView = none ∧
        (∀ j, j < 3 →
          env.fault (.userBegin j) = none ∧ env.fault (.userSeq j) = none ∧
          env.fault (.userPut j) = none ∧ env.fault (.userCommit j) = none) ∧
        (env.fault .nestedBegin = none ∧ env.fault .nestedCreate = none ∧
          env.fault .nestedCommit = none ∧ findBucket [formatUint 10] db = none) ∧
        (env.fault .manualBegin = none ∧ env.fault .manualCreate = none ∧
          env.fault .manualSeq = none ∧ env.fault .manualPut = none ∧
          env.fault .manualCommit = none ∧ findBucket adminsPath db = none)) ∧
      (∀ (r : Res Unit) (s : Store) (out : List Event) (e : Error),
        r = .err e → checked r s out = ⟨.fatal e, s, out⟩) ∧
      (∀ (n i : Nat) (s : Store) (out : List Event) (e : Error),
        (createUser env i (newUser i) s).res = .err e →
        userLoop env (n + 1) i s out
          = ⟨.fatal e, (createUser env i (newUser i) s).db, out⟩) ∧
      (∀ (s : Store) (out : List Event) (e : Error),
        (manualBlock env s).2 = .err e →
        manualStep env s out = ⟨.fatal e, (manualBlock env s).1, out⟩) ∧
      (∀ (s : Store) (out : List Event) (e : Error),
        (iterCall env s out).2 ≠ .err e ∧ (prefixCall env s out).2 ≠ .err e ∧
        (rangeCall env s out).2 ≠ .err e ∧ (forEachCall env s out).2 ≠ .err e ∧
        (eachCall env s out).2 ≠ .err e) ∧
      (∀ u : User, ∃ b, env.marshal u = .ok b) ∧
      (∀ k, (mainUpTo k env db).status ≠ .ok → main env db = mainUpTo k env db) := by
  obtain ⟨hv1, hv2, hv3, hv4, hv5, hm⟩ := hq
  have hfine := main_fine env db
  refine ⟨hfine.1, ?_, ?_, ?_, ?_, ?_, hm, fun k h => main_eq_mainUpTo k env db h⟩
  · intro hok
    obtain ⟨⟨⟨⟨p0, p1, p2, p3⟩, hu⟩, hn⟩, hman⟩ := hfine.2 hok
    exact ⟨p0, p1, p2, p3, hu, hn, hman⟩
  · intro r s out e hr
    subst hr
    rfl
  · intro n i s out e he
    rw [userLoop_succ, he]
    rfl
  · intro s out e he
    show checked (manualBlock env s).2 (manualBlock env s).1 out = _
    rw [he]
    rfl
  · intro s out e
    exact ⟨iterCall_ne_err env hv1 s out e, prefixCall_ne_err env hv2 s out e,
      rangeCall_ne_err env hv3 s out e, forEachCall_ne_err env hv5 s out e,
      eachCall_ne_err env hv4 s out e⟩

set_option maxRecDepth 100000 in
/-- C5 on an empty database: with no failure `main` ends normally; when the
`Commit` of the `Update` that puts "user_1" fails, `main` ends through
`pp.Fatal` with that error, as the run stood after that statement, the store
still holding only the empty `users` bucket and nothing printed. -/
theorem main_error_fatal_witness :
    Quiet calm ∧ (main calm []).status = .ok ∧
      Quiet putCommitFails ∧
      main putCommitFails [] = mainUpTo 2 putCommitFails [] ∧
      main putCommitFails [] = ⟨.fatal .io, [([bucket], ⟨[], 0⟩)], []⟩ := by
  have h2 : (mainUpTo 2 putCommitFails []).status ≠ .ok := by
    have : (mainUpTo 2 putCommitFails []).status = .fatal .io := by rfl
    rw [this]
    simp
  have h3 := (main_error_fatal putCommitFails [] quiet_putCommitFails).2.2.2.2.2.2.2 2 h2
  refine ⟨quiet_calm, by rfl, quiet_putCommitFails, h3, ?_⟩
  rw [h3]
  rfl

/-! ## The ids the creating loop assigns -/

/-- C3: when the three `createUser` calls of the loop of `main` succeed on a
store whose `users` counter is `n`, the three `Id`s are `int` of the three
successive counter values, pairwise distinct, stored under three pairwise
distinct keys, and all three records are in the bucket afterwards (no creation
overwrites an earlier one); they are `n+1`, `n+2`, `n+3` whenever these are Go
ints (`n + 3 < 2^63`), and strictly increasing unless the counter passes
`2^63 - 1` inside the loop (`n` is `2^63 - 3` or `2^63 - 2`). In every run of
`main` the loop starts on the bucket the run has just created, whose counter is
0, so the `Id`s are 1, 2 and 3. -/
theorem userLoop_ids (env : Env) (db : Store) (out : List Event)
    (h : (userLoop env 3 0 db out).status = .ok) :
    ∃ d b0 b1 b2, findBucket [bucket] db = some d ∧
      (createUser env 0 (newUser 0) db).res = .ok () ∧
      (createUser env 1 (newUser 1) (createUser env 0 (newUser 0) db).db).res = .ok () ∧
      (createUser env 2 (newUser 2)
        (createUser env 1 (newUser 1) (createUser env 0 (newUser 0) db).db).db).res = .ok () ∧
      (userLoop env 3 0 db out).db =
        (createUser env 2 (newUser 2)
          (createUser env 1 (newUser 1) (createUser env 0 (newUser 0) db).db).db).db ∧
      (createUser env 0 (newUser 0) db).state.Id = toInt (incr64 d.sequence) ∧
      (createUser env 1 (newUser 1) (createUser env 0 (newUser 0) db).db).state.Id
        = toInt (incr64 (incr64 d.sequence)) ∧
      (createUser env 2 (newUser 2)
        (createUser env 1 (newUser 1) (createUser env 0 (newUser 0) db).db).db).state.Id
        = toInt (incr64 (incr64 (incr64 d.sequence))) ∧
      toInt (incr64 d.sequence) ≠ toInt (incr64 (incr64 d.sequence)) ∧
      toInt (incr64 d.sequence) ≠ toInt (incr64 (incr64 (incr64 d.sequence))) ∧
      toInt (incr64 (incr64 d.sequence)) ≠ toInt (incr64 (incr64 (incr64 d.sequence))) ∧
      i2b (toInt (incr64 d.sequence)) ≠ i2b (toInt (incr64 (incr64 d.sequence))) ∧
      i2b (toInt (incr64 d.sequence)) ≠ i2b (toInt (incr64 (incr64 (incr64 d.sequence)))) ∧
      i2b (toInt (incr64 (incr64 d.sequence)))
        ≠ i2b (toInt (incr64 (incr64 (incr64 d.sequence)))) ∧
      env.marshal (createUser env 0 (newUser 0) db).state = .ok b0 ∧
      env.marshal (createUser env 1 (newUser 1) (createUser env 0 (newUser 0) db).db).state
        = .ok b1 ∧
      env.marshal (createUser env 2 (newUser 2)
        (createUser env 1 (newUser 1) (createUser env 0 (newUser 0) db).db).db).state = .ok b2 ∧
      valueAt (userLoop env 3 0 db out).db [bucket] (i2b (toInt (incr64 d.sequence)))
        = some b0 ∧
      valueAt (userLoop env 3 0 db out).db [bucket] (i2b (toInt (incr64 (incr64 d.sequence))))
        = some b1 ∧
      valueAt (userLoop env 3 0 db out).db [bucket]
        (i2b (toInt (incr64 (incr64 (incr64 d.sequence))))) = some b2 ∧
      (d.sequence + 3 < 2 ^ 63 →
        toInt (incr64 d.sequence) = (d.sequence : Int) + 1 ∧
        toInt (incr64 (incr64 d.sequence)) = (d.sequence : Int) + 2 ∧
        toInt (incr64 (incr64 (incr64 d.sequence))) = (d.sequence : Int) + 3) ∧
      (d.sequence % 2 ^ 64 ≠ 2 ^ 63 - 3 → d.sequence % 2 ^ 64 ≠ 2 ^ 63 - 2 →
        toInt (incr64 d.sequence) < toInt (incr64 (incr64 d.sequence)) ∧
        toInt (incr64 (incr64 d.sequence)) < toInt (incr64 (incr64 (incr64 d.sequence)))) ∧
      (∀ db0, (loopEntry env db0).status = .ok → db = (loopEntry env db0).db →
        d.sequence = 0 ∧
        (createUser env 0 (newUser 0) db).state.Id = 1 ∧
        (createUser env 1 (newUser 1) (createUser env 0 (newUser 0) db).db).state.Id = 2 ∧
        (createUser env 2 (newUser 2)
          (createUser env 1 (newUser 1) (createUser env 0 (newUser 0) db).db).db).state.Id
          = 3) := by
  obtain ⟨r0, e0⟩ := userLoop_succ_ok h
  rw [e0] at h
  obtain ⟨r1, e1⟩ := userLoop_succ_ok h
  rw [e1] at h
  obtain ⟨r2, e2⟩ := userLoop_succ_ok h
  have hdb : (userLoop env 3 0 db out).db =
      (createUser env 2 (newUser 2)
        (createUser env 1 (newUser 1) (createUser env 0 (newUser 0) db).db).db).db := by
    rw [e0, e1, e2]
    rfl
  rw [hdb]
  obtain ⟨d, b0, hf0, a1, a2, a3, a4, hm0⟩ := createUser_ok r0
  have run0 := createUser_run hf0 a1 a2 a3 a4 hm0
  rw [run0] at r1 r2 ⊢
  simp only at r1 r2 ⊢
  obtain ⟨d1, b1, hf1, c1, c2, c3, c4, hm1⟩ := createUser_ok r1
  rw [findBucket_afterCreate] at hf1
  injection hf1 with hf1
  subst hf1
  have hf1 := findBucket_afterCreate d b0 db
  have run1 := createUser_run hf1 c1 c2 c3 c4 hm1
  rw [run1] at r2 ⊢
  simp only at r2 ⊢
  obtain ⟨d2, b2, hf2, g1, g2, g3, g4, hm2⟩ := createUser_ok r2
  rw [findBucket_afterCreate] at hf2
  injection hf2 with hf2
  subst hf2
  have hf2 := findBucket_afterCreate
    ⟨insertPair (i2b (toInt (incr64 d.sequence))) b0 d.pairs, incr64 d.sequence⟩ b1
    (afterCreate d b0 db)
  have run2 := createUser_run hf2 g1 g2 g3 g4 hm2
  rw [run2]
  simp only at hm1 hm2 ⊢
  have l1 := incr64_lt d.sequence
  have l2 := incr64_lt (incr64 d.sequence)
  have l3 := incr64_lt (incr64 (incr64 d.sequence))
  have n12 : incr64 d.sequence ≠ incr64 (incr64 d.sequence) := by
    unfold incr64
    omega
  have n13 : incr64 d.sequence ≠ incr64 (incr64 (incr64 d.sequence)) := by
    unfold incr64
    omega
  have n23 : incr64 (incr64 d.sequence) ≠ incr64 (incr64 (incr64 d.sequence)) := by
    unfold incr64
    omega
  have k : ∀ {a b : Nat}, a < 2 ^ 64 → b < 2 ^ 64 → a ≠ b → i2b (toInt a) ≠ i2b (toInt b) := by
    intro a b ha hb hab heq
    rw [i2b_toInt, i2b_toInt, Nat.mod_eq_of_lt ha, Nat.mod_eq_of_lt hb] at heq
    exact hab (putUint64_injective ha hb heq)
  have k12 := k l1 l2 n12
  have k13 := k l1 l3 n13
  have k23 := k l2 l3 n23
  refine ⟨d, b0, b1, b2, hf0, trivial, trivial, trivial, trivial, rfl, rfl, rfl,
    fun e => n12 (toInt_injective l1 l2 e), fun e => n13 (toInt_injective l1 l3 e),
    fun e => n23 (toInt_injective l2 l3 e), k12, k13, k23, hm0, hm1, hm2, ?_, ?_, ?_, ?_,
    ?_, ?_⟩
  · simp only [afterCreate, valueAt_setBucket_same,
      lookupPair_insertPair_other k13, lookupPair_insertPair_other k12,
      lookupPair_insertPair_same]
  · simp only [afterCreate, valueAt_setBucket_same,
      lookupPair_insertPair_other k23, lookupPair_insertPair_same]
  · simp only [afterCreate, valueAt_setBucket_same, lookupPair_insertPair_same]
  · intro hsmall
    unfold toInt incr64
    refine ⟨?_, ?_, ?_⟩ <;> split_ifs <;> omega
  · intro hx hy
    unfold toInt incr64
    refine ⟨?_, ?_⟩ <;> split_ifs <;> omega
  · intro db0 hok hdb
    have hentry := ((loopEntry_fine env db0).2 hok).2
    rw [hdb, hentry, entryStore_users] at hf0
    injection hf0 with hd
    subst hd
    exact ⟨rfl, by decide, by decide, by decide⟩

set_option maxRecDepth 100000 in
/-- C3 on the run of `main` from an empty database in which nothing fails: the
loop starts at counter 0 and assigns the ids 1, 2 and 3. -/
theorem userLoop_ids_witness :
    (loopEntry calm []).status = .ok ∧
      (userLoop calm 3 0 (loopEntry calm []).db (loopEntry calm []).out).status = .ok ∧
      (createUser calm 0 (newUser 0) (loopEntry calm []).db).state.Id = 1 ∧
      (createUser calm 1 (newUser 1)
        (createUser calm 0 (newUser 0) (loopEntry calm []).db).db).state.Id = 2 ∧
      (createUser calm 2 (newUser 2)
        (createUser calm 1 (newUser 1)
          (createUser calm 0 (newUser 0) (loopEntry calm []).db).db).db).state.Id = 3 := by
  have hentry : (loopEntry calm []).status = .ok := by rfl
  have hloop : (userLoop calm 3 0 (loopEntry calm []).db (loopEntry calm []).out).status
      = .ok := by rfl
  obtain ⟨d, b0, b1, b2, h⟩ :=
    userLoop_ids calm (loopEntry calm []).db (loopEntry calm []).out hloop
  have hmain := h.2.2.2.2.2.2.2.2.2.2.2.2.2.2.2.2.2.2.2.2.2.2 [] hentry rfl
  exact ⟨hentry, hloop, hmain.2⟩

/-! ## The id `createUser` assigns -/

theorem createUser_counter (env : Env) (i : Nat) (u : User) (db : Store) (d : BucketData)
    (hf : findBucket [bucket] db = some d) :
    ∃ d2, findBucket [bucket] (createUser env i u db).db = some d2 ∧
      d2.sequence ≤ d.sequence + 1 := by
  rcases createUser_db env i u db with hdb | ⟨d1, buf, hf1, _, hdb⟩
  · rw [hdb]
    exact ⟨d, hf, by omega⟩
  · rw [hdb, findBucket_afterCreate]
    rw [hf] at hf1
    injection hf1 with hf1
    subst hf1
    refine ⟨_, rfl, ?_⟩
    show incr64 d.sequence ≤ d.sequence + 1
    unfold incr64
    exact Nat.mod_le _ _

/-- C7: a successful `createUser(u)` sets `u.Id` to `int` of the value
`NextSequence` returned in the same transaction, whatever `Id` held before, and
only then serializes and writes: with `json.Marshal` as modelled, the value
stored under the key is the JSON of the user with that `Id`, its `id` field
reads back as `u.Id`, the key is `i2b u.Id`, the 8-byte big-endian encoding of
the sequence value, and `u.Id` is the only `int` that `i2b` encodes as that key.
When the sequence value is a Go int (below `2^63`), `u.Id` is that value and the
`id` field of the stored JSON is the integer the key decodes to; at each of the
three calls a run of `main` makes the value is at most 3. -/
theorem createUser_assigns_id (env : Env) (i : Nat) (u : User) (db : Store) (x : Int)
    (hm : env.marshal = fun v => .ok (jsonBytes v))
    (h : (createUser env i u db).res = .ok ()) :
    ∃ d tx1 id, findBucket [bucket] db = some d ∧
      nextSequence (env.fault (.userSeq i)) db (openBucket db [] bucket) = .ok (tx1, id) ∧
      (createUser env i u db).state.Id = toInt id ∧
      toUint64 (createUser env i u db).state.Id = id ∧
      (createUser env i { u with Id := x } db).res = .ok () ∧
      (createUser env i { u with Id := x } db).state = (createUser env i u db).state ∧
      (createUser env i { u with Id := x } db).db = (createUser env i u db).db ∧
      valueAt (createUser env i u db).db [bucket] (putUint64 id)
        = some (jsonBytes (createUser env i u db).state) ∧
      jsonIdField (jsonBytes (createUser env i u db).state)
        = some (createUser env i u db).state.Id ∧
      i2b (createUser env i u db).state.Id = putUint64 id ∧
      (∀ v : Int, -2 ^ 63 ≤ v → v < 2 ^ 63 → i2b v = putUint64 id →
        v = (createUser env i u db).state.Id) ∧
      uint64BE (putUint64 id) = id ∧
      (id < 2 ^ 63 →
        (createUser env i u db).state.Id = (id : Int) ∧
        jsonIdField (jsonBytes (createUser env i u db).state)
          = some ((uint64BE (i2b (createUser env i u db).state.Id) : Nat) : Int)) ∧
      (∀ db0, (loopEntry env db0).status = .ok →
        (db = (loopEntry env db0).db ∨
          db = (createUser env 0 (newUser 0) (loopEntry env db0).db).db ∨
          db = (createUser env 1 (newUser 1)
            (createUser env 0 (newUser 0) (loopEntry env db0).db).db).db) →
        id < 2 ^ 63) := by
  obtain ⟨d, buf, hf, h1, h2, h3, h4, hmu⟩ := createUser_ok h
  have hmx : env.marshal { ({ u with Id := x } : User) with Id := toInt (incr64 d.sequence) }
      = .ok buf := hmu
  have hbuf : buf = jsonBytes { u with Id := toInt (incr64 d.sequence) } := by
    rw [hm] at hmu
    injection hmu with hmu
    exact hmu.symm
  have hid : incr64 d.sequence < 2 ^ 64 := by
    unfold incr64
    omega
  have hkey : i2b (toInt (incr64 d.sequence)) = putUint64 (incr64 d.sequence) := by
    rw [i2b_toInt, Nat.mod_eq_of_lt hid]
  have ho : openBucket db [] bucket = some [bucket] := openBucket_eq_some (by simpa using hf)
  have hreach : ∀ db0, (loopEntry env db0).status = .ok →
      (db = (loopEntry env db0).db ∨
        db = (createUser env 0 (newUser 0) (loopEntry env db0).db).db ∨
        db = (createUser env 1 (newUser 1)
          (createUser env 0 (newUser 0) (loopEntry env db0).db).db).db) →
      incr64 d.sequence < 2 ^ 63 := by
    intro db0 hok hcase
    have hentry := ((loopEntry_fine env db0).2 hok).2
    have h0 := entryStore_users db0
    rw [← hentry] at h0
    obtain ⟨d1, hd1, hle1⟩ := createUser_counter env 0 (newUser 0) _ _ h0
    obtain ⟨d2, hd2, hle2⟩ := createUser_counter env 1 (newUser 1) _ _ hd1
    have hseq : d.sequence ≤ 2 := by
      rcases hcase with hc | hc | hc
      · rw [hc, h0] at hf
        injection hf with hf
        rw [← hf]
        simp
      · rw [hc, hd1] at hf
        injection hf with hf
        rw [← hf]
        simp only at hle1
        omega
      · rw [hc, hd2] at hf
        injection hf with hf
        rw [← hf]
        simp only at hle1
        omega
    unfold incr64
    omega
  rw [createUser_run hf h1 h2 h3 h4 hmx, createUser_run hf h1 h2 h3 h4 hmu]
  refine ⟨d, setBucket [bucket] ⟨d.pairs, incr64 d.sequence⟩ db, incr64 d.sequence, hf, ?_,
    rfl, ?_, rfl, rfl, rfl, ?_, ?_, hkey, ?_, ?_, ?_, hreach⟩
  · simp only [nextSequence, ho, hf, h2]
  · show toUint64 (toInt (incr64 d.sequence)) = incr64 d.sequence
    rw [toUint64_toInt, Nat.mod_eq_of_lt hid]
  · simp only [afterCreate, valueAt_setBucket_same, hkey, lookupPair_insertPair_same, hbuf]
  · exact jsonIdField_jsonBytes _
  · intro v hv0 hv1 hv
    have hu : toUint64 v = incr64 d.sequence := putUint64_injective (toUint64_lt v) hid hv
    show v = toInt (incr64 d.sequence)
    rw [← hu, toInt_toUint64 hv0 hv1]
  · rw [uint64BE_putUint64, Nat.mod_eq_of_lt hid]
  · intro hfit
    have hidInt : toInt (incr64 d.sequence) = ((incr64 d.sequence : Nat) : Int) :=
      toInt_of_lt hfit
    refine ⟨hidInt, ?_⟩
    show jsonIdField (jsonBytes _) = some ((uint64BE (i2b (toInt (incr64 d.sequence))) : Nat) : Int)
    rw [jsonIdField_jsonBytes, hkey, uint64BE_putUint64, Nat.mod_eq_of_lt hid]
    exact congrArg some hidInt

set_option maxRecDepth 100000 in
/-- C7 on a store whose `users` bucket has counter 41, with a user whose `Id`
was 7 before the call: the `Id` becomes 42, the value `NextSequence` returned,
and the `id` field of the stored JSON is what the key decodes to. -/
theorem createUser_assigns_id_witness :
    (createUser calm 0 ⟨7, lit "ann", 30⟩ [([bucket], ⟨[], 41⟩)]).state.Id = 42 ∧
      (∃ tx1, nextSequence (calm.fault (.userSeq 0)) [([bucket], ⟨[], 41⟩)]
          (openBucket [([bucket], ⟨[], 41⟩)] [] bucket) = .ok (tx1, 42)) ∧
      jsonIdField (jsonBytes (createUser calm 0 ⟨7, lit "ann", 30⟩ [([bucket], ⟨[], 41⟩)]).state)
        = some ((uint64BE (i2b
            (createUser calm 0 ⟨7, lit "ann", 30⟩ [([bucket], ⟨[], 41⟩)]).state.Id) : Nat) : Int) := by
  obtain ⟨d, tx1, id, _, h2, _, h4, _, _, _, _, _, _, _, _, hfit, _⟩ :=
    createUser_assigns_id calm 0 ⟨7, lit "ann", 30⟩ [([bucket], ⟨[], 41⟩)] 0 rfl rfl
  have hid : id = 42 := by
    rw [← h4]
    rfl
  subst hid
  exact ⟨rfl, ⟨tx1, h2⟩, (hfit (by decide)).2⟩

end BoltDemo
